import Mathlib

/-!
# US states service: catalog / overlay merge and fun-fact mutations

A shallow embedding of the handlers of `controllers/statesController.js` and
of `middleware/isValidStateCode.js`.

* The static catalog `states.json`, the helper `getStateName` and the two
  runtime primitives `String.prototype.toUpperCase` and string-to-number
  conversion are not part of the controller; they are the fields of `Env`
  and every theorem holds for all of them.
* The Mongo collection behind the `State` model is a list of documents in
  natural order. `State.findOne` by `stateCode` is the first document with
  that code, `State.find()` is the whole list, `doc.save()` writes a
  fetched document back in place and appends a freshly constructed one.
* Every handler is a function from the environment, the store and the
  request to the response and the store left behind.
* JavaScript numbers are `JsNum`: the finite values are rationals, which is
  exact for `<`, `>`, `x - 1` and `Math.floor` on the values the handlers
  compute with. The one product the handlers form, `Math.random() * length`,
  is rounded to the nearest double by `roundDouble`.
-/

namespace StatesController

/-! ## JavaScript values -/

/-- A JavaScript number: `NaN`, the two infinities, or a finite value. -/
inductive JsNum where
  | nan
  | posInf
  | negInf
  | fin (q : ℚ)
  deriving DecidableEq

/-- An integer or one of the two infinities. -/
inductive IntOrInf where
  | negInf
  | int (z : ℤ)
  | posInf
  deriving DecidableEq

/-- A value of a request body field. `undefined` is an absent field; arrays
carry strings (the payload of the add operation is an array of strings) and
`obj` is any other object. -/
inductive JsValue where
  | undefined
  | null
  | bool (b : Bool)
  | num (n : JsNum)
  | str (s : String)
  | arr (xs : List String)
  | obj
  deriving DecidableEq

namespace JsNum

/-- The JavaScript `a < b` on numbers: false as soon as one side is `NaN`. -/
def lt : JsNum → JsNum → Bool
  | nan, _ => false
  | _, nan => false
  | posInf, _ => false
  | _, negInf => false
  | negInf, _ => true
  | fin _, posInf => true
  | fin p, fin q => decide (p < q)

/-- The JavaScript `a > b`, which is `b < a`. -/
def gt (a b : JsNum) : Bool := lt b a

/-- The JavaScript `a - 1`. -/
def subOne : JsNum → JsNum
  | fin q => fin (q - 1)
  | n => n

/-- The number of a list length. -/
def ofNat (n : Nat) : JsNum := fin (n : ℚ)

/-- ECMAScript `ToIntegerOrInfinity`: `NaN` becomes `0`, a finite value is
truncated towards zero, the infinities stay. -/
def toIntegerOrInfinity : JsNum → IntOrInf
  | nan => .int 0
  | posInf => .posInf
  | negInf => .negInf
  | fin q => if 0 ≤ q then .int ⌊q⌋ else .int ⌈q⌉

/-- The array index a number denotes as a property key, if it is one: the
number must be a non-negative integer. -/
def arrayIndex? : JsNum → Option Nat
  | fin q => if 0 ≤ q ∧ ((⌊q⌋ : ℤ) : ℚ) = q then some ⌊q⌋.toNat else none
  | _ => none

end JsNum

namespace JsValue

/-- JavaScript truthiness, the negation of `!v`. -/
def truthy : JsValue → Bool
  | undefined => false
  | null => false
  | bool b => b
  | num .nan => false
  | num (.fin q) => decide (q ≠ 0)
  | num _ => true
  | str s => decide (s ≠ "")
  | arr _ => true
  | obj => true

/-- ECMAScript `ToNumber`, with the conversion of strings supplied by the
runtime. An array is first joined with commas, any other object is
`"[object Object]"`, which is not a number. -/
def toNumber (stringToNumber : String → JsNum) : JsValue → JsNum
  | undefined => .nan
  | null => .fin 0
  | bool b => if b then .fin 1 else .fin 0
  | num n => n
  | str s => stringToNumber s
  | arr xs => stringToNumber (",".intercalate xs)
  | obj => .nan

end JsValue

/-! ## Data model -/

/-- One entry of `states.json`: its `code`, its `state` name, the remaining
scalar fields, and the `funfacts` array when the entry has one. -/
structure StateRecord where
  code : String
  state : String
  fields : List (String × String)
  funfacts : Option (List String)
  deriving DecidableEq

/-- A document of the `State` collection. -/
structure OverlayRecord where
  stateCode : String
  funfacts : List String
  deriving DecidableEq

/-- Modelled from the spec: the persisted layout of `model/State`, one
collection of entries with a `stateCode` and a `funfacts` list of strings,
held in natural order. -/
abbrev Store := List OverlayRecord

/-- What the controller takes from outside: the catalog `states.json`, the
helper `getStateName`, and the runtime's `toUpperCase` and string-to-number
conversion. -/
structure Env where
  statesJson : List StateRecord
  getStateName : String → String
  toUpperCase : String → String
  stringToNumber : String → JsNum

/-- The route parameters `req.params`. -/
structure Params where
  state : Option String

/-- The query string `req.query`. -/
structure Query where
  contig : Option String

/-- The parsed body `req.body`. -/
structure Body where
  funfacts : JsValue
  index : JsValue
  funfact : JsValue

/-- A request as the handlers read it. -/
structure Request where
  params : Params
  query : Query
  body : Body

/-- What a handler passes to `res.json`. -/
inductive Payload where
  | message (text : String)
  | states (list : List StateRecord)
  | state (record : StateRecord)
  | funfact (value : Option String)
  | document (doc : OverlayRecord)
  deriving DecidableEq

/-- A response: the status code and the JSON payload. -/
structure Response where
  status : Nat
  body : Payload
  deriving DecidableEq

/-- The call `res.json(payload)` with the default status. -/
def Response.json (payload : Payload) : Response := ⟨200, payload⟩

/-- The call `res.status(code).json` of an object holding one `message`. -/
def Response.error (code : Nat) (text : String) : Response := ⟨code, .message text⟩

/-! ## The store -/

/-- The query `State.findOne` by `stateCode`: the first match, if any. -/
def findOne (store : Store) (code : String) : Option OverlayRecord :=
  store.find? (fun d => d.stateCode == code)

/-- Writing a fetched document back: the first document with its code is
replaced. -/
def updateOne : Store → OverlayRecord → Store
  | [], _ => []
  | d :: ds, doc => if d.stateCode == doc.stateCode then doc :: ds else d :: updateOne ds doc

/-- The call `doc.save()`: a new document is inserted at the end of the
collection, a fetched one is written back in place. -/
def save (store : Store) (isNew : Bool) (doc : OverlayRecord) : Store :=
  if isNew then store ++ [doc] else updateOne store doc

/-- The statement `statesJson.find(s => s.code === code)`. -/
def findStatic (env : Env) (code : String) : Option StateRecord :=
  env.statesJson.find? (fun s => s.code == code)

/-- The test `!req?.params?.state`: the parameter is absent or empty. -/
def stateMissing (req : Request) : Bool :=
  match req.params.state with
  | none => true
  | some s => decide (s = "")

/-- The value of `req.params.state` once it is known to be present. -/
def stateParam (req : Request) : String := req.params.state.getD ""

/-- The assignment `xs[key] = v` on an array of `funfacts`: an array index
inside the array overwrites that element, and a key that is not an array
index (a fraction, `NaN`) adds a property and leaves the elements as they
are. An index at or past the end is never assigned: `updateFunfact` checks
`index > length` first. -/
def assignAt (xs : List String) (key : JsNum) (v : String) : List String :=
  match key.arrayIndex? with
  | some k => if k < xs.length then xs.set k v else xs
  | none => xs

/-- The call `xs.splice(start, deleteCount)`: the relative start is turned
into an integer, counted from the end when negative and clamped to the
array, and at most `deleteCount` elements are removed from there. -/
def splice (xs : List String) (start : JsNum) (deleteCount : Nat) : List String :=
  let len := xs.length
  let actualStart : Nat :=
    match start.toIntegerOrInfinity with
    | .negInf => 0
    | .posInf => len
    | .int z => if z < 0 then (max ((len : ℤ) + z) 0).toNat else min z.toNat len
  let actualDeleteCount := min deleteCount (len - actualStart)
  xs.take actualStart ++ xs.drop (actualStart + actualDeleteCount)

/-! ## The handlers -/

/-- One step of the `forEach` of `getAllStates`: a document with a non-empty
list overwrites `funfacts` of the first catalog entry with its code. -/
def mergeRecord (jsonStates : List StateRecord) (dbRec : OverlayRecord) : List StateRecord :=
  if dbRec.funfacts.length > 0 then
    match jsonStates.findIdx? (fun s => s.code == dbRec.stateCode) with
    | some idx => jsonStates.modify (fun s => { s with funfacts := some dbRec.funfacts }) idx
    | none => jsonStates
  else jsonStates

/-- The handler `getAllStates`. `State.find()` resolves to an array, which is
never falsy, so the 204 branch is not taken. -/
def getAllStates (env : Env) (store : Store) (req : Request) : Response × Store :=
  let mongoStates := store
  let jsonStates := mongoStates.foldl mergeRecord env.statesJson
  let jsonStates :=
    if req.query.contig = some "true" then
      jsonStates.filter (fun s => s.code != "AK" && s.code != "HI")
    else if req.query.contig = some "false" then
      jsonStates.filter (fun s => s.code == "AK" || s.code == "HI")
    else jsonStates
  (Response.json (.states jsonStates), store)

/-- The handler `getState`. -/
def getState (env : Env) (store : Store) (req : Request) : Response × Store :=
  if stateMissing req then (Response.error 400 "State code required.", store)
  else
    let code := env.toUpperCase (stateParam req)
    match findStatic env code with
    | none => (Response.error 400 "Invalid state abbreviation parameter", store)
    | some staticState =>
      let jsonState :=
        match findOne store code with
        | some dbState =>
          if dbState.funfacts.length > 0 then
            { staticState with funfacts := some dbState.funfacts }
          else staticState
        | none => staticState
      (Response.json (.state jsonState), store)

/-- The list `getFunfact` draws from: the catalog's `funfacts` when it is an
array, else the empty list, overridden by a non-empty overlay list. -/
def gatherFunfacts (store : Store) (code : String) (staticState : StateRecord) : List String :=
  let funfacts := staticState.funfacts.getD []
  match findOne store code with
  | some dbState => if dbState.funfacts.length ≠ 0 then dbState.funfacts else funfacts
  | none => funfacts

/-! ### Double arithmetic -/

/-- The exponent of the binade of a positive value, `⌊log₂ x⌋`, and not below
`-1022`, the exponent all subnormal doubles share. -/
def binade (x : ℚ) : ℤ := max (Int.log 2 x) (-1022)

/-- The spacing of the doubles in the binade of a positive value: 52
fraction bits below the leading one. -/
def ulp (x : ℚ) : ℚ := (2 : ℚ) ^ (binade x - 52)

/-- The nearest integer, a tie going to the even neighbour. -/
def roundHalfEven (y : ℚ) : ℤ :=
  let f := ⌊y⌋
  if y - f < 1 / 2 then f
  else if 1 / 2 < y - f then f + 1
  else if f % 2 = 0 then f else f + 1

/-- The double an exact result is rounded to (IEEE 754 binary64, round to
nearest, ties to even). Overflow to infinity is left out: the handlers round
only a product of a draw below one and an array length. -/
def roundDouble (x : ℚ) : ℚ :=
  if x = 0 then 0
  else if 0 < x then (roundHalfEven (x / ulp x) : ℚ) * ulp x
  else -((roundHalfEven (-x / ulp (-x)) : ℚ) * ulp (-x))

/-- The element `funfacts[Math.floor(random * funfacts.length)]`, which is
`undefined` when the index is not inside the array. The product is the
double product: the exact one rounded. -/
def pickAt (funfacts : List String) (random : ℚ) : Option String :=
  let randomIndex : ℤ := ⌊roundDouble (random * (funfacts.length : ℚ))⌋
  if 0 ≤ randomIndex then funfacts[randomIndex.toNat]? else none

/-- The handler `getFunfact`, with the value of `Math.random()`, a double in
`[0, 1)`, as `random`. -/
def getFunfact (env : Env) (store : Store) (random : ℚ) (req : Request) : Response × Store :=
  if stateMissing req then (Response.error 400 "State code required.", store)
  else
    let code := env.toUpperCase (stateParam req)
    match findStatic env code with
    | none => (Response.error 400 "Invalid state abbreviation parameter", store)
    | some staticState =>
      let funfacts := gatherFunfacts store code staticState
      if funfacts.length = 0 then
        let name := env.getStateName code
        (Response.error 404 ("No Fun Facts found for " ++ name), store)
      else (Response.json (.funfact (pickAt funfacts random)), store)

/-- The handler `createNewFunfacts`. -/
def createNewFunfacts (env : Env) (store : Store) (req : Request) : Response × Store :=
  if stateMissing req then (Response.error 400 "State code required.", store)
  else
    let code := env.toUpperCase (stateParam req)
    match findStatic env code with
    | none => (Response.error 400 ("No state matches code " ++ stateParam req ++ "."), store)
    | some _ =>
      let found := findOne store code
      let state : OverlayRecord := found.getD { stateCode := code, funfacts := [] }
      if !req.body.funfacts.truthy then
        (Response.error 400 "State fun facts value required", store)
      else
        match req.body.funfacts with
        | .arr facts =>
          let state := { state with funfacts := state.funfacts ++ facts }
          (Response.json (.document state), save store found.isNone state)
        | _ => (Response.error 400 "State fun facts value must be an array", store)

/-- The handler `updateFunfact`. The two payload tests are read off the
shape of the values: `index` passes when it is a number, `funfact` when it
is a string other than the empty one. -/
def updateFunfact (env : Env) (store : Store) (req : Request) : Response × Store :=
  if stateMissing req then (Response.error 400 "State code required.", store)
  else
    let code := env.toUpperCase (stateParam req)
    match findStatic env code with
    | none => (Response.error 400 ("No state matches code " ++ stateParam req ++ "."), store)
    | some _ =>
      match req.body.index with
      | .num index =>
        match req.body.funfact with
        | .str funfact =>
          if funfact = "" then (Response.error 400 "State fun fact value required", store)
          else
            let stateName := env.getStateName code
            match findOne store code with
            | none => (Response.error 400 ("No Fun Facts found for " ++ stateName), store)
            | some stateRec =>
              if stateRec.funfacts.length = 0 then
                (Response.error 400 ("No Fun Facts found for " ++ stateName), store)
              else if index.lt (.fin 1) || index.gt (.ofNat stateRec.funfacts.length) then
                (Response.error 400 ("No Fun Fact found at that index for " ++ stateName), store)
              else
                let stateRec :=
                  { stateRec with funfacts := assignAt stateRec.funfacts index.subOne funfact }
                (Response.json (.document stateRec), save store false stateRec)
        | _ => (Response.error 400 "State fun fact value required", store)
      | _ => (Response.error 400 "State fun fact index value required", store)

/-- The handler `deleteFunfact`. The comparisons of `index` with numbers and
`index - 1` convert it with `ToNumber`. -/
def deleteFunfact (env : Env) (store : Store) (req : Request) : Response × Store :=
  if stateMissing req then (Response.error 400 "State code required.", store)
  else
    let code := env.toUpperCase (stateParam req)
    match findStatic env code with
    | none => (Response.error 400 ("No state matches code " ++ stateParam req ++ "."), store)
    | some _ =>
      let found := findOne store code
      let stateRec : OverlayRecord := found.getD { stateCode := code, funfacts := [] }
      let stateName := env.getStateName code
      let index := req.body.index
      if index = .undefined then
        (Response.error 400 "State fun fact index value required", store)
      else if stateRec.funfacts.length = 0 then
        (Response.error 400 ("No Fun Facts found for " ++ stateName), store)
      else
        let number := index.toNumber env.stringToNumber
        if number.lt (.fin 1) || number.gt (.ofNat stateRec.funfacts.length) then
          (Response.error 400 ("No Fun Fact found at that index for " ++ stateName), store)
        else
          let stateRec := { stateRec with funfacts := splice stateRec.funfacts number.subOne 1 }
          (Response.json (.document stateRec), save store found.isNone stateRec)

/-! ## The middleware -/

/-- The middleware `isValidStateCode` of `middleware/isValidStateCode.js`. Its
branch for a missing parameter evaluates `res.status(400)`, and the module
binds no `res` (the function takes `req` only), so that branch throws a
`ReferenceError`. -/
def isValidStateCode (env : Env) (req : Request) : Except String Bool :=
  if stateMissing req then .error "ReferenceError: res is not defined"
  else
    let stateCode := env.statesJson.map (fun state => state.code)
    let upcaseState := env.toUpperCase (stateParam req)
    .ok (stateCode.contains upcaseState)

/-! ## Derived notions -/

/-- The two properties of a well-formed store: the `stateCode` of every
document is a code of the catalog, whose codes are the canonical uppercase
ones, and no two documents share a `stateCode`. -/
def StoreInvariant (env : Env) (store : Store) : Prop :=
  (∀ d ∈ store, d.stateCode ∈ env.statesJson.map (fun s => s.code)) ∧
    (store.map (fun d => d.stateCode)).Nodup

instance (env : Env) (store : Store) : Decidable (StoreInvariant env store) := by
  unfold StoreInvariant
  infer_instance

/-- The record `getState` answers with for the catalog entry `s`: the entry
itself, with `funfacts` taken from the overlay document of its code when that
document holds a non-empty list. -/
def mergedRecord (store : Store) (s : StateRecord) : StateRecord :=
  match findOne store s.code with
  | some dbState =>
    if dbState.funfacts.length > 0 then { s with funfacts := some dbState.funfacts } else s
  | none => s

/-- The part of a catalog entry that no handler changes. -/
def StateRecord.staticPart (s : StateRecord) : String × String × List (String × String) :=
  (s.code, s.state, s.fields)

/-- The effective fun-fact list of a code as the specification words it: the
overlay list if it is non-empty, else the catalog's list, else empty. -/
def effectiveFunfacts (store : Store) (code : String) (staticState : StateRecord) : List String :=
  match findOne store code with
  | some d => if d.funfacts ≠ [] then d.funfacts else staticState.funfacts.getD []
  | none => staticState.funfacts.getD []

/-! ## A small instance

A three-entry catalog and a one-document store, used to run the handlers on
concrete requests. -/

/-- Modelled from the spec: `getStateName` resolves the human-readable name
of a code through the catalog. -/
def lookupName (catalog : List StateRecord) (code : String) : String :=
  ((catalog.find? (fun s => s.code == code)).map (fun s => s.state)).getD ""

/-- Upper-casing of the ASCII letters of a string. -/
def asciiUpper (s : String) : String := String.mk (s.data.map Char.toUpper)

/-- A catalog entry with default fun facts. -/
def kansas : StateRecord :=
  ⟨"KS", "Kansas", [("capital_city", "Topeka")], some ["Default fact"]⟩

/-- A catalog entry without a `funfacts` field. -/
def alaska : StateRecord := ⟨"AK", "Alaska", [("capital_city", "Juneau")], none⟩

/-- A second catalog entry without a `funfacts` field. -/
def hawaii : StateRecord := ⟨"HI", "Hawaii", [("capital_city", "Honolulu")], none⟩

/-- The instance environment. No string of the instance is converted to a
number, so its `stringToNumber` is constant. -/
def demoEnv : Env :=
  ⟨[alaska, kansas, hawaii], lookupName [alaska, kansas, hawaii], asciiUpper, fun _ => .nan⟩

/-- A request for the state `c` carrying the three body fields. -/
def mkRequest (c : String) (funfacts index funfact : JsValue) : Request :=
  ⟨⟨some c⟩, ⟨none⟩, ⟨funfacts, index, funfact⟩⟩

/-- A request for the state `c` with an empty body. -/
def codeRequest (c : String) : Request := mkRequest c .undefined .undefined .undefined

/-- A request to `getAllStates` with the query value `contig`. -/
def contigRequest (contig : Option String) : Request :=
  ⟨⟨none⟩, ⟨contig⟩, ⟨.undefined, .undefined, .undefined⟩⟩

/-- The store after the two facts of the end-to-end example were added. -/
def kansasStore : Store := [⟨"KS", ["Fact A", "Fact B"]⟩]

/-- The request of the end-to-end example that adds two facts to Kansas. -/
def addRequest : Request := mkRequest "ks" (.arr ["Fact A", "Fact B"]) .undefined .undefined

/-- A request to replace the fact of Kansas at `index` by `Fact A2`. -/
def replaceRequest (index : JsNum) : Request :=
  mkRequest "ks" .undefined (.num index) (.str "Fact A2")

/-- A store in which Kansas has seven facts. -/
def sevenFactsStore : Store :=
  [⟨"KS", ["Fact 1", "Fact 2", "Fact 3", "Fact 4", "Fact 5", "Fact 6", "Fact 7"]⟩]

/-- The double `0.5714285714285714`, the one nearest to `4/7` and just below
it. Its exact product with 7 is `4 - 2⁻⁵²`, which is no double and rounds to
`4`. -/
def roundingDraw : ℚ := 5146971002709138 / 2 ^ 53

/-- A request to remove the fact of Kansas at `index`. -/
def removeRequest (index : JsValue) : Request := mkRequest "ks" .undefined index .undefined

/-! ## Requests and the catalog -/

theorem stateMissing_of_param {req : Request} {c : String}
    (hparam : req.params.state = some c) (hc : c ≠ "") : stateMissing req = false := by
  simp [stateMissing, hparam, hc]

theorem stateParam_of_param {req : Request} {c : String}
    (hparam : req.params.state = some c) : stateParam req = c := by
  simp [stateParam, hparam]

theorem staticPart_modify (f : StateRecord → StateRecord)
    (hf : ∀ s, (f s).staticPart = s.staticPart) (l : List StateRecord) (n : Nat) :
    (l.modify f n).map StateRecord.staticPart = l.map StateRecord.staticPart := by
  induction l generalizing n with
  | nil => cases n <;> simp
  | cons s ss ih =>
    cases n with
    | zero => simp [hf]
    | succ n => simp [ih]

theorem staticPart_mergeRecord (js : List StateRecord) (d : OverlayRecord) :
    (mergeRecord js d).map StateRecord.staticPart = js.map StateRecord.staticPart := by
  unfold mergeRecord
  split
  · split
    · exact staticPart_modify (fun s => { s with funfacts := some d.funfacts }) (fun s => rfl) _ _
    · rfl
  · rfl

theorem staticPart_foldl_mergeRecord (store : Store) (js : List StateRecord) :
    (store.foldl mergeRecord js).map StateRecord.staticPart = js.map StateRecord.staticPart := by
  induction store generalizing js with
  | nil => rfl
  | cons d ds ih => simp [List.foldl_cons, ih, staticPart_mergeRecord]

theorem staticPart_filter_congr (p : String → Bool) {l₁ l₂ : List StateRecord}
    (h : l₁.map StateRecord.staticPart = l₂.map StateRecord.staticPart) :
    (l₁.filter (fun s => p s.code)).map StateRecord.staticPart
      = (l₂.filter (fun s => p s.code)).map StateRecord.staticPart := by
  have key : ∀ l : List StateRecord,
      (l.filter (fun s => p s.code)).map StateRecord.staticPart
        = (l.map StateRecord.staticPart).filter (fun t => p t.1) := by
    intro l
    rw [List.filter_map]
    rfl
  rw [key, key, h]

/-- Claim C1: for a present code whose uppercase form is in the catalog,
`getState` answers with the catalog record of that code; its code, name and
other fields are the catalog's, and its `funfacts` is either the overlay
list, when an overlay record exists and its list is non-empty, or else the
catalog record's own `funfacts`, never a mixture of the two. -/
theorem getState_returns_merged_record (env : Env) (store : Store) (req : Request) (c : String)
    (staticState : StateRecord) (hparam : req.params.state = some c) (hc : c ≠ "")
    (hcat : findStatic env (env.toUpperCase c) = some staticState) :
    ∃ record : StateRecord,
      getState env store req = (Response.json (.state record), store) ∧
      record.code = staticState.code ∧ record.state = staticState.state ∧
      record.fields = staticState.fields ∧
      ((∃ d, findOne store (env.toUpperCase c) = some d ∧ d.funfacts ≠ [] ∧
          record.funfacts = some d.funfacts) ∨
       ((∀ d, findOne store (env.toUpperCase c) = some d → d.funfacts = []) ∧
          record.funfacts = staticState.funfacts)) := by
  have hm := stateMissing_of_param hparam hc
  have hp := stateParam_of_param hparam
  unfold getState
  simp only [hm, hp, hcat, Bool.false_eq_true, if_false]
  cases hfind : findOne store (env.toUpperCase c) with
  | none => exact ⟨staticState, rfl, rfl, rfl, rfl, Or.inr ⟨by simp, rfl⟩⟩
  | some d =>
    by_cases hlen : d.funfacts.length > 0
    · refine ⟨{ staticState with funfacts := some d.funfacts }, by simp [hlen], rfl, rfl, rfl,
        Or.inl ⟨d, rfl, ?_, rfl⟩⟩
      exact List.ne_nil_of_length_pos hlen
    · refine ⟨staticState, by simp [hlen], rfl, rfl, rfl, Or.inr ⟨?_, rfl⟩⟩
      intro d' hd'
      cases hd'
      exact List.length_eq_zero.mp (by omega)



theorem codes_of_staticPart {l₁ l₂ : List StateRecord}
    (h : l₁.map StateRecord.staticPart = l₂.map StateRecord.staticPart) :
    l₁.map (fun s => s.code) = l₂.map (fun s => s.code) := by
  have := congrArg (List.map (fun t : String × String × List (String × String) => t.1)) h
  simpa [List.map_map, Function.comp_def, StateRecord.staticPart] using this

theorem perm_AK_HI (codes : List String) (hAK : codes.count "AK" = 1)
    (hHI : codes.count "HI" = 1) :
    (codes.filter (fun c => c == "AK" || c == "HI")).Perm ["AK", "HI"] := by
  rw [List.perm_iff_count]
  intro a
  by_cases hp : (fun c : String => c == "AK" || c == "HI") a = true
  · rw [@List.count_filter _ _ _ (fun c : String => c == "AK" || c == "HI") a codes hp]
    simp only [Bool.or_eq_true, beq_iff_eq] at hp
    rcases hp with rfl | rfl
    · rw [hAK]; decide
    · rw [hHI]; decide
  · have hnot : a ∉ codes.filter (fun c => c == "AK" || c == "HI") := by
      intro hmem
      exact hp (List.mem_filter.mp hmem).2
    have hnot2 : a ∉ ["AK", "HI"] := by
      intro hmem
      apply hp
      simp only [List.mem_cons, List.mem_singleton, List.not_mem_nil, or_false] at hmem
      simpa using hmem
    rw [List.count_eq_zero_of_not_mem hnot, List.count_eq_zero_of_not_mem hnot2]

/-- Claim C2: when the catalog holds the codes AK and HI exactly once each,
`getAllStates` with `contig` equal to `true` returns the catalog's entries
other than AK and HI, one for one and in order; with `contig` equal to
`false` it returns the entries AK and HI and nothing else, two in all; with
any other or no `contig` it returns one entry per catalog entry, so a list of
the catalog's length. -/
theorem getAllStates_contig_filter (env : Env) (store : Store) (req : Request)
    (hAK : (env.statesJson.map (fun s => s.code)).count "AK" = 1)
    (hHI : (env.statesJson.map (fun s => s.code)).count "HI" = 1) :
    ∃ l : List StateRecord,
      getAllStates env store req = (Response.json (.states l), store) ∧
      (req.query.contig = some "true" →
        l.map StateRecord.staticPart
          = (env.statesJson.filter (fun s => s.code != "AK" && s.code != "HI")).map
              StateRecord.staticPart) ∧
      (req.query.contig = some "false" →
        l.map StateRecord.staticPart
          = (env.statesJson.filter (fun s => s.code == "AK" || s.code == "HI")).map
              StateRecord.staticPart ∧
        (l.map (fun s => s.code)).Perm ["AK", "HI"]) ∧
      (req.query.contig ≠ some "true" → req.query.contig ≠ some "false" →
        l.map StateRecord.staticPart = env.statesJson.map StateRecord.staticPart ∧
        l.length = env.statesJson.length) := by
  have hfold := staticPart_foldl_mergeRecord store env.statesJson
  refine ⟨_, rfl, ?_, ?_, ?_⟩
  · intro h
    simp only [h, if_true]
    exact staticPart_filter_congr (fun c => c != "AK" && c != "HI") hfold
  · intro h
    have hne : (some "false" : Option String) ≠ some "true" := by decide
    simp only [h, hne, if_false, if_true]
    have hpart := staticPart_filter_congr (fun c => c == "AK" || c == "HI") hfold
    refine ⟨hpart, ?_⟩
    rw [codes_of_staticPart hpart]
    have := perm_AK_HI _ hAK hHI
    rw [List.filter_map] at this
    exact this
  · intro h1 h2
    simp only [h1, h2, if_false]
    refine ⟨hfold, ?_⟩
    have := congrArg List.length hfold
    simpa using this

theorem roundHalfEven_nonneg {y : ℚ} (h : 0 ≤ y) : 0 ≤ roundHalfEven y := by
  have hf : 0 ≤ ⌊y⌋ := Int.floor_nonneg.mpr h
  unfold roundHalfEven
  simp only []
  split
  · exact hf
  · split
    · omega
    · split <;> omega

theorem roundHalfEven_le_pred {y : ℚ} {N : ℤ} (h : y + 1 / 2 < N) :
    roundHalfEven y ≤ N - 1 := by
  have hfl : (⌊y⌋ : ℚ) ≤ y := Int.floor_le y
  have hlow : ⌊y⌋ ≤ N - 1 := by
    have : (⌊y⌋ : ℚ) < N := by linarith
    have : ⌊y⌋ < N := by exact_mod_cast this
    omega
  have hup : ¬ (y - ⌊y⌋ < 1 / 2) → ⌊y⌋ + 1 ≤ N - 1 := by
    intro hfrac
    have : ((⌊y⌋ + 1 : ℤ) : ℚ) < N := by
      push_cast
      linarith [not_lt.mp hfrac]
    have : ⌊y⌋ + 1 < N := by exact_mod_cast this
    omega
  unfold roundHalfEven
  simp only []
  split
  · exact hlow
  · rename_i hfrac
    split
    · exact hup hfrac
    · split
      · exact hlow
      · exact hup hfrac

theorem ulp_pos (x : ℚ) : 0 < ulp x := by
  unfold ulp
  positivity

theorem binade_le_of_lt {x : ℚ} (hx : 0 < x) (h : x < 2 ^ (53 : ℕ)) : binade x ≤ 52 := by
  unfold binade
  have hlog : Int.log 2 x < 53 := by
    rw [← Int.lt_zpow_iff_log_lt (by norm_num) hx]
    exact_mod_cast h
  omega

theorem ulp_lt_of_lt {x : ℚ} {n : ℕ} (hx : 0 < x) (hn : 0 < n) (h : x < n) :
    ulp x < (n : ℚ) * 2 ^ (-52 : ℤ) := by
  unfold ulp binade
  have hnq : (1 : ℚ) ≤ n := by exact_mod_cast hn
  rcases le_total (Int.log 2 x) (-1022) with hlog | hlog
  · rw [max_eq_right hlog]
    calc (2 : ℚ) ^ ((-1022 : ℤ) - 52) < 2 ^ (-52 : ℤ) := by
          apply zpow_lt_zpow_right₀ (by norm_num) (by norm_num)
      _ = 1 * 2 ^ (-52 : ℤ) := by ring
      _ ≤ (n : ℚ) * 2 ^ (-52 : ℤ) := by
          apply mul_le_mul_of_nonneg_right hnq (by positivity)
  · rw [max_eq_left hlog]
    have hle : (2 : ℚ) ^ Int.log 2 x ≤ x := by
      have := @Int.zpow_log_le_self ℚ _ _ 2 x (by norm_num) hx
      exact_mod_cast this
    calc (2 : ℚ) ^ (Int.log 2 x - 52) = 2 ^ Int.log 2 x * 2 ^ (-52 : ℤ) := by
          rw [← zpow_add₀ (by norm_num)]
          rfl
      _ ≤ x * 2 ^ (-52 : ℤ) := by
          apply mul_le_mul_of_nonneg_right hle (by positivity)
      _ < (n : ℚ) * 2 ^ (-52 : ℤ) := by
          apply mul_lt_mul_of_pos_right h (by positivity)

theorem ulp_eq_inv_pow {x : ℚ} (h : binade x ≤ 52) :
    ulp x = 1 / (2 : ℚ) ^ ((52 - binade x).toNat) := by
  unfold ulp
  have hk : binade x - 52 = -(((52 - binade x).toNat : ℕ) : ℤ) := by
    rw [Int.toNat_of_nonneg (by omega)]
    ring
  rw [hk, zpow_neg, zpow_natCast]
  simp

theorem roundDouble_mul_lt (r : ℚ) (n : ℕ) (h0 : 0 ≤ r) (hr : r ≤ 1 - 2 ^ (-53 : ℤ))
    (hn : 0 < n) (hbound : n ≤ 2 ^ 53) :
    0 ≤ roundDouble (r * n) ∧ roundDouble (r * n) < n := by
  have hnq : (0 : ℚ) < n := by exact_mod_cast hn
  have hx0 : 0 ≤ r * n := mul_nonneg h0 hnq.le
  have hprod : r * n ≤ n - n * 2 ^ (-53 : ℤ) := by
    have := mul_le_mul_of_nonneg_right hr hnq.le
    linarith
  have hpow : (0 : ℚ) < 2 ^ (-53 : ℤ) := by positivity
  by_cases hzero : r * n = 0
  · simp [roundDouble, hzero, hnq]
  · have hx : 0 < r * (n : ℚ) := lt_of_le_of_ne hx0 (Ne.symm hzero)
    have hlt : r * (n : ℚ) < n := by nlinarith
    have hu := ulp_pos (r * n)
    have hulp := ulp_lt_of_lt hx hn hlt
    have hbin : binade (r * n) ≤ 52 := by
      apply binade_le_of_lt hx
      have : (n : ℚ) ≤ 2 ^ (53 : ℕ) := by exact_mod_cast hbound
      linarith
    have hN : (n : ℚ) / ulp (r * n) = ((n * 2 ^ ((52 - binade (r * n)).toNat) : ℤ) : ℚ) := by
      rw [ulp_eq_inv_pow hbin]
      push_cast
      field_simp
    have hhalf : (2 : ℚ) ^ (-52 : ℤ) = 2 * 2 ^ (-53 : ℤ) := by norm_num
    have hy : r * n / ulp (r * n) + 1 / 2
        < ((n * 2 ^ ((52 - binade (r * n)).toNat) : ℤ) : ℚ) := by
      rw [← hN, div_add' _ _ _ hu.ne', div_lt_div_iff_of_pos_right hu]
      rw [hhalf] at hulp
      nlinarith
    have hround := roundHalfEven_le_pred hy
    have hnonneg := roundHalfEven_nonneg (div_nonneg hx0 hu.le)
    have hval : roundDouble (r * n) = (roundHalfEven (r * n / ulp (r * n)) : ℚ) * ulp (r * n) := by
      simp [roundDouble, hzero, hx]
    rw [hval]
    refine ⟨mul_nonneg (by exact_mod_cast hnonneg) hu.le, ?_⟩
    have hcast : (roundHalfEven (r * n / ulp (r * n)) : ℚ)
        ≤ (n : ℚ) / ulp (r * n) - 1 := by
      rw [hN]
      exact_mod_cast hround
    calc (roundHalfEven (r * n / ulp (r * n)) : ℚ) * ulp (r * n)
        ≤ ((n : ℚ) / ulp (r * n) - 1) * ulp (r * n) :=
          mul_le_mul_of_nonneg_right hcast hu.le
      _ = n - ulp (r * n) := by field_simp
      _ < n := by linarith

theorem double_below_one (r : ℚ) (h0 : 0 ≤ r) (h1 : r < 1) (hd : roundDouble r = r) :
    r ≤ 1 - 2 ^ (-53 : ℤ) := by
  by_cases hzero : r = 0
  · rw [hzero]
    norm_num
  · have hpos : 0 < r := lt_of_le_of_ne h0 (Ne.symm hzero)
    have hlog : Int.log 2 r < 0 := by
      rw [← Int.lt_zpow_iff_log_lt (by norm_num) hpos]
      simpa using h1
    by_cases hsmall : Int.log 2 r ≤ -2
    · have hlt : r < (2 : ℚ) ^ (Int.log 2 r + 1) := by
        have := @Int.lt_zpow_succ_log_self ℚ _ _ 2 (by norm_num) r
        exact_mod_cast this
      have hle : (2 : ℚ) ^ (Int.log 2 r + 1) ≤ 2 ^ (-1 : ℤ) :=
        zpow_le_zpow_right₀ (by norm_num) (by omega)
      have : r < 2 ^ (-1 : ℤ) := lt_of_lt_of_le hlt hle
      have h53 : (2 : ℚ) ^ (-1 : ℤ) ≤ 1 - 2 ^ (-53 : ℤ) := by norm_num
      linarith
    · have hexp : Int.log 2 r = -1 := by omega
      have hu : ulp r = 2 ^ (-53 : ℤ) := by
        unfold ulp binade
        rw [hexp]
        norm_num
      have hval : (roundHalfEven (r / ulp r) : ℚ) * ulp r = r := by
        simpa [roundDouble, hzero, hpos] using hd
      rw [hu] at hval
      have hk : (roundHalfEven (r / 2 ^ (-53 : ℤ)) : ℚ) < ((2 ^ 53 : ℤ) : ℚ) := by
        have : (roundHalfEven (r / 2 ^ (-53 : ℤ)) : ℚ) * 2 ^ (-53 : ℤ) < 1 := by
          rw [hval]
          exact h1
        have hp : (0 : ℚ) < 2 ^ (-53 : ℤ) := by positivity
        have h2 : (roundHalfEven (r / 2 ^ (-53 : ℤ)) : ℚ)
            < 1 / 2 ^ (-53 : ℤ) := by
          rw [lt_div_iff₀ hp]
          exact this
        have h3 : (1 : ℚ) / 2 ^ (-53 : ℤ) = ((2 ^ 53 : ℤ) : ℚ) := by norm_num
        rw [← h3]
        exact h2
      have hk' : roundHalfEven (r / 2 ^ (-53 : ℤ)) ≤ 2 ^ 53 - 1 := by
        have : roundHalfEven (r / 2 ^ (-53 : ℤ)) < 2 ^ 53 := by exact_mod_cast hk
        omega
      have hk'' : (roundHalfEven (r / 2 ^ (-53 : ℤ)) : ℚ) ≤ 2 ^ 53 - 1 := by
        exact_mod_cast hk'
      rw [← hval]
      have hp : (0 : ℚ) ≤ 2 ^ (-53 : ℤ) := by positivity
      calc (roundHalfEven (r / 2 ^ (-53 : ℤ)) : ℚ) * 2 ^ (-53 : ℤ)
          ≤ (2 ^ 53 - 1) * 2 ^ (-53 : ℤ) := mul_le_mul_of_nonneg_right hk'' hp
        _ = 1 - 2 ^ (-53 : ℤ) := by norm_num

theorem floor_random_lt (r : ℚ) (n : Nat) (h0 : 0 ≤ r) (h1 : r < 1)
    (hdouble : roundDouble r = r) (hn : 0 < n) (hbound : n < 2 ^ 32) :
    0 ≤ ⌊roundDouble (r * (n : ℚ))⌋ ∧ ⌊roundDouble (r * (n : ℚ))⌋.toNat < n := by
  have hr := double_below_one r h0 h1 hdouble
  have hle : n ≤ 2 ^ 53 := by
    have : (2 : ℕ) ^ 32 ≤ 2 ^ 53 := by norm_num
    omega
  obtain ⟨hlow, hup⟩ := roundDouble_mul_lt r n h0 hr hn hle
  have hnn : 0 ≤ ⌊roundDouble (r * (n : ℚ))⌋ := Int.floor_nonneg.mpr hlow
  refine ⟨hnn, ?_⟩
  have hlt : ⌊roundDouble (r * (n : ℚ))⌋ < (n : ℤ) := by
    rw [Int.floor_lt]
    exact_mod_cast hup
  omega

theorem gatherFunfacts_eq (store : Store) (code : String) (staticState : StateRecord) :
    gatherFunfacts store code staticState = effectiveFunfacts store code staticState := by
  unfold gatherFunfacts effectiveFunfacts
  cases findOne store code with
  | none => rfl
  | some d => by_cases h : d.funfacts = [] <;> simp [h]

/-- Claim C3: for a valid code and a random draw `r`, a double with
`0 ≤ r < 1`, `getFunfact` answers 404 `No Fun Facts found for <name>` exactly
when the effective fun-fact list is empty; otherwise it answers with the
element of that list at index `⌊r * length⌋`, the product being the rounded
double product, and that index is below the length. The length is that of a
JavaScript array, below `2 ^ 32`. -/
theorem getFunfact_random_pick (env : Env) (store : Store) (req : Request) (c : String)
    (staticState : StateRecord) (r : ℚ) (hparam : req.params.state = some c) (hc : c ≠ "")
    (hcat : findStatic env (env.toUpperCase c) = some staticState)
    (h0 : 0 ≤ r) (h1 : r < 1) (hdouble : roundDouble r = r)
    (harray : (effectiveFunfacts store (env.toUpperCase c) staticState).length < 2 ^ 32) :
    (getFunfact env store r req
        = (Response.error 404
            ("No Fun Facts found for " ++ env.getStateName (env.toUpperCase c)), store)
      ↔ effectiveFunfacts store (env.toUpperCase c) staticState = []) ∧
    (effectiveFunfacts store (env.toUpperCase c) staticState ≠ [] →
      ∃ fact : String,
        getFunfact env store r req = (Response.json (.funfact (some fact)), store) ∧
        fact ∈ effectiveFunfacts store (env.toUpperCase c) staticState ∧
        ⌊roundDouble (r *
            ((effectiveFunfacts store (env.toUpperCase c) staticState).length : ℚ))⌋.toNat
          < (effectiveFunfacts store (env.toUpperCase c) staticState).length ∧
        (effectiveFunfacts store (env.toUpperCase c) staticState)[
          ⌊roundDouble (r *
            ((effectiveFunfacts store (env.toUpperCase c) staticState).length : ℚ))⌋.toNat]?
          = some fact) := by
  have hm := stateMissing_of_param hparam hc
  have hp := stateParam_of_param hparam
  have hg := gatherFunfacts_eq store (env.toUpperCase c) staticState
  generalize effectiveFunfacts store (env.toUpperCase c) staticState = eff at hg harray ⊢
  unfold getFunfact
  simp only [hm, hp, hcat, hg, Bool.false_eq_true, if_false]
  by_cases he : eff = []
  · subst he
    simp
  · have hpos : 0 < eff.length := List.length_pos.mpr he
    have hlen : eff.length ≠ 0 := by omega
    obtain ⟨hnn, hlt⟩ := floor_random_lt r eff.length h0 h1 hdouble hpos harray
    simp only [hlen, if_false, he, iff_false, ne_eq, not_false_eq_true, forall_true_left]
    refine ⟨?_, ?_⟩
    · intro h
      have := congrArg (fun p => p.1.status) h
      simp [Response.json, Response.error] at this
    · refine ⟨eff.get ⟨_, hlt⟩, ?_, List.get_mem _ _ _, hlt, ?_⟩
      · simp [pickAt, hnn, List.getElem?_eq_getElem hlt]
      · simp [List.getElem?_eq_getElem hlt]

/-- Witness of C1: `getState` for `ks` on the example store. -/
theorem getState_returns_merged_record_witness :
    ∃ record : StateRecord,
      getState demoEnv kansasStore (codeRequest "ks")
        = (Response.json (.state record), kansasStore) ∧
      record.code = kansas.code ∧ record.state = kansas.state ∧
      record.fields = kansas.fields ∧
      ((∃ d, findOne kansasStore (demoEnv.toUpperCase "ks") = some d ∧ d.funfacts ≠ [] ∧
          record.funfacts = some d.funfacts) ∨
       ((∀ d, findOne kansasStore (demoEnv.toUpperCase "ks") = some d → d.funfacts = []) ∧
          record.funfacts = kansas.funfacts)) :=
  getState_returns_merged_record demoEnv kansasStore (codeRequest "ks") "ks" kansas rfl
    (by decide) (by decide)

/-- Witness of C2: the contiguous filter on the example catalog. -/
theorem getAllStates_contig_filter_witness :
    ∃ l : List StateRecord,
      getAllStates demoEnv kansasStore (contigRequest (some "true"))
        = (Response.json (.states l), kansasStore) ∧
      ((contigRequest (some "true")).query.contig = some "true" →
        l.map StateRecord.staticPart
          = (demoEnv.statesJson.filter (fun s => s.code != "AK" && s.code != "HI")).map
              StateRecord.staticPart) ∧
      ((contigRequest (some "true")).query.contig = some "false" →
        l.map StateRecord.staticPart
          = (demoEnv.statesJson.filter (fun s => s.code == "AK" || s.code == "HI")).map
              StateRecord.staticPart ∧
        (l.map (fun s => s.code)).Perm ["AK", "HI"]) ∧
      ((contigRequest (some "true")).query.contig ≠ some "true" →
        (contigRequest (some "true")).query.contig ≠ some "false" →
        l.map StateRecord.staticPart = demoEnv.statesJson.map StateRecord.staticPart ∧
        l.length = demoEnv.statesJson.length) :=
  getAllStates_contig_filter demoEnv kansasStore (contigRequest (some "true"))
    (by decide) (by decide)

/-- Witness of C3: the draw `0.5714285714285714` on seven facts, where the
double product is `4` although the exact product lies below `4`. -/
theorem getFunfact_random_pick_witness :
    (0 ≤ roundingDraw ∧ roundingDraw < 1 ∧ roundDouble roundingDraw = roundingDraw) ∧
    (getFunfact demoEnv sevenFactsStore roundingDraw (codeRequest "ks")
        = (Response.error 404
            ("No Fun Facts found for " ++ demoEnv.getStateName (demoEnv.toUpperCase "ks")),
            sevenFactsStore)
      ↔ effectiveFunfacts sevenFactsStore (demoEnv.toUpperCase "ks") kansas = []) ∧
    (effectiveFunfacts sevenFactsStore (demoEnv.toUpperCase "ks") kansas ≠ [] →
      ∃ fact : String,
        getFunfact demoEnv sevenFactsStore roundingDraw (codeRequest "ks")
          = (Response.json (.funfact (some fact)), sevenFactsStore) ∧
        fact ∈ effectiveFunfacts sevenFactsStore (demoEnv.toUpperCase "ks") kansas ∧
        ⌊roundDouble (roundingDraw *
            ((effectiveFunfacts sevenFactsStore (demoEnv.toUpperCase "ks")
              kansas).length : ℚ))⌋.toNat
          < (effectiveFunfacts sevenFactsStore (demoEnv.toUpperCase "ks") kansas).length ∧
        (effectiveFunfacts sevenFactsStore (demoEnv.toUpperCase "ks") kansas)[
          ⌊roundDouble (roundingDraw *
            ((effectiveFunfacts sevenFactsStore (demoEnv.toUpperCase "ks")
              kansas).length : ℚ))⌋.toNat]?
          = some fact) :=
  ⟨⟨by decide!, by decide!, by decide!⟩,
    getFunfact_random_pick demoEnv sevenFactsStore (codeRequest "ks") "ks" kansas roundingDraw
      rfl (by decide) (by decide) (by decide!) (by decide!) (by decide!) (by decide)⟩

/-- The rounding of the product is what the handler follows: at the draw
`0.5714285714285714` on seven facts the exact product has floor 3, the double
product is `4`, and `getFunfact` answers with the fifth fact. -/
theorem getFunfact_follows_double_product :
    ⌊roundingDraw * 7⌋ = 3 ∧ roundDouble (roundingDraw * 7) = 4 ∧
    getFunfact demoEnv sevenFactsStore roundingDraw (codeRequest "ks")
      = (Response.json (.funfact (some "Fact 5")), sevenFactsStore) :=
  ⟨by decide!, by decide!, by decide!⟩


/-! ## Lemmas on the store -/

theorem findOne_code {store : Store} {code : String} {d : OverlayRecord}
    (h : findOne store code = some d) : d.stateCode = code := by
  have := List.find?_some h
  simpa using this

theorem findOne_updateOne_self (store : Store) (doc d : OverlayRecord)
    (h : findOne store doc.stateCode = some d) :
    findOne (updateOne store doc) doc.stateCode = some doc := by
  induction store with
  | nil => simp [findOne] at h
  | cons e es ih =>
    by_cases he : e.stateCode = doc.stateCode
    · simp [updateOne, findOne, he]
    · have h' : findOne es doc.stateCode = some d := by
        simpa [findOne, List.find?_cons, he] using h
      have := ih h'
      simpa [updateOne, findOne, List.find?_cons, he] using this

theorem findOne_append_new (store : Store) (doc : OverlayRecord)
    (h : findOne store doc.stateCode = none) :
    findOne (store ++ [doc]) doc.stateCode = some doc := by
  unfold findOne at h ⊢
  rw [List.find?_append, h]
  simp

theorem findOne_save (store : Store) (doc : OverlayRecord) :
    findOne (save store (findOne store doc.stateCode).isNone doc) doc.stateCode = some doc := by
  cases h : findOne store doc.stateCode with
  | none => simpa [save] using findOne_append_new store doc h
  | some d => simpa [save] using findOne_updateOne_self store doc d h

theorem updateOne_idem (store : Store) (doc : OverlayRecord) :
    updateOne (updateOne store doc) doc = updateOne store doc := by
  induction store with
  | nil => rfl
  | cons e es ih =>
    by_cases he : e.stateCode = doc.stateCode
    · simp [updateOne, he]
    · simp [updateOne, he, ih]

/-! ## Lemmas on array assignment and `splice` -/

theorem length_assignAt (xs : List String) (key : JsNum) (v : String) :
    (assignAt xs key v).length = xs.length := by
  unfold assignAt
  split
  · split <;> simp
  · rfl

theorem assignAt_idem (xs : List String) (key : JsNum) (v : String) :
    assignAt (assignAt xs key v) key v = assignAt xs key v := by
  unfold assignAt
  cases key.arrayIndex? with
  | none => rfl
  | some k =>
    by_cases hk : k < xs.length
    · simp [hk]
    · simp [hk]

theorem arrayIndex_subOne_nat (i : Nat) (hi : 1 ≤ i) :
    (JsNum.fin (i : ℚ)).subOne.arrayIndex? = some (i - 1) := by
  have hq : ((i : ℚ) - 1) = (((i - 1 : ℕ) : ℤ) : ℚ) := by
    push_cast [Nat.cast_sub hi]
    ring
  simp only [JsNum.subOne, JsNum.arrayIndex?]
  rw [hq, Int.floor_intCast]
  simp

/-- After the range check of `updateFunfact` has passed, a key `index - 1`
that is an array index lies inside the array, so the assignment never
writes past the end. -/
theorem arrayIndex_lt_of_in_range (index : JsNum) (n k : Nat)
    (hrange : (index.lt (.fin 1) || index.gt (.ofNat n)) = false)
    (hkey : index.subOne.arrayIndex? = some k) : k < n := by
  cases index with
  | fin q =>
    simp only [JsNum.lt, JsNum.gt, JsNum.ofNat, Bool.or_eq_false_iff,
      decide_eq_false_iff_not, not_lt] at hrange
    simp only [JsNum.subOne, JsNum.arrayIndex?] at hkey
    split at hkey
    · rename_i hq
      have hk : ⌊q - 1⌋.toNat = k := by simpa using hkey
      have hfloor : ((⌊q - 1⌋ : ℤ) : ℚ) ≤ (n : ℚ) - 1 := by
        rw [hq.2]
        linarith [hrange.2]
      have hnn : 0 ≤ ⌊q - 1⌋ := Int.floor_nonneg.mpr hq.1
      have hlt : ⌊q - 1⌋ < (n : ℤ) := by
        have : ((⌊q - 1⌋ : ℤ) : ℚ) < ((n : ℤ) : ℚ) := by
          push_cast
          linarith
        exact_mod_cast this
      omega
    · simp at hkey
  | nan => simp [JsNum.subOne, JsNum.arrayIndex?] at hkey
  | posInf => simp [JsNum.subOne, JsNum.arrayIndex?] at hkey
  | negInf => simp [JsNum.subOne, JsNum.arrayIndex?] at hkey

theorem assignAt_nat (xs : List String) (i : Nat) (v : String) (h1 : 1 ≤ i)
    (h2 : i ≤ xs.length) :
    assignAt xs (JsNum.fin (i : ℚ)).subOne v = xs.set (i - 1) v := by
  unfold assignAt
  rw [arrayIndex_subOne_nat i h1]
  have : i - 1 < xs.length := by omega
  simp [this]

theorem splice_nat (xs : List String) (i : Nat) (h1 : 1 ≤ i) (h2 : i ≤ xs.length) :
    splice xs (JsNum.fin (i : ℚ)).subOne 1 = xs.take (i - 1) ++ xs.drop i := by
  have hq : ((i : ℚ) - 1) = (((i - 1 : ℕ) : ℤ) : ℚ) := by
    push_cast [Nat.cast_sub h1]
    ring
  have hnn : (0 : ℚ) ≤ (((i - 1 : ℕ) : ℤ) : ℚ) := by positivity
  simp only [splice, JsNum.subOne, JsNum.toIntegerOrInfinity]
  rw [hq, if_pos hnn, Int.floor_intCast]
  have hlt : ¬ (((i - 1 : ℕ) : ℤ) < 0) := by omega
  simp only [hlt, if_false, Int.toNat_ofNat]
  have hmin : min (i - 1) xs.length = i - 1 := by omega
  have hcount : min 1 (xs.length - (i - 1)) = 1 := by omega
  rw [hmin, hcount]
  have : i - 1 + 1 = i := by omega
  rw [this]

theorem lt_one_nat (i : Nat) : (JsNum.fin (i : ℚ)).lt (.fin 1) = decide (i < 1) := by
  simp [JsNum.lt]

theorem gt_ofNat_nat (i n : Nat) : (JsNum.fin (i : ℚ)).gt (.ofNat n) = decide (n < i) := by
  simp [JsNum.gt, JsNum.lt, JsNum.ofNat]

/-! ## The handlers on a valid code -/


theorem getState_valid (env : Env) (store : Store) (req : Request) (c : String)
    (staticState : StateRecord) (hparam : req.params.state = some c) (hc : c ≠ "")
    (hcat : findStatic env (env.toUpperCase c) = some staticState) :
    getState env store req
      = (Response.json (.state
          (match findOne store (env.toUpperCase c) with
           | some dbState =>
             if dbState.funfacts.length > 0 then
               { staticState with funfacts := some dbState.funfacts }
             else staticState
           | none => staticState)), store) := by
  have hm := stateMissing_of_param hparam hc
  have hp := stateParam_of_param hparam
  unfold getState
  simp only [hm, hp, hcat, Bool.false_eq_true, if_false]

theorem createNewFunfacts_valid (env : Env) (store : Store) (req : Request) (c : String)
    (staticState : StateRecord) (facts : List String)
    (hparam : req.params.state = some c) (hc : c ≠ "")
    (hcat : findStatic env (env.toUpperCase c) = some staticState)
    (hbody : req.body.funfacts = .arr facts) :
    createNewFunfacts env store req
      = (Response.json (.document
          ⟨env.toUpperCase c,
            ((findOne store (env.toUpperCase c)).map (fun d => d.funfacts)).getD [] ++ facts⟩),
         save store (findOne store (env.toUpperCase c)).isNone
          ⟨env.toUpperCase c,
            ((findOne store (env.toUpperCase c)).map (fun d => d.funfacts)).getD [] ++ facts⟩) := by
  have hm := stateMissing_of_param hparam hc
  have hp := stateParam_of_param hparam
  unfold createNewFunfacts
  simp only [hm, hp, hcat, hbody, Bool.false_eq_true, if_false, JsValue.truthy, Bool.not_true]
  cases hfind : findOne store (env.toUpperCase c) with
  | none => simp
  | some d => simp [findOne_code hfind]

/-- Claim C4: for a valid code and a non-empty array `facts`,
`createNewFunfacts` stores for the code the previous overlay list (empty when
there was no record) followed by `facts`, in order and with duplicates kept;
a following `getState` for the code returns that stored list as `funfacts`,
which is `facts` itself when the overlay was absent or empty. -/
theorem createNewFunfacts_then_getState (env : Env) (store : Store) (req next : Request)
    (c : String) (staticState : StateRecord) (facts : List String)
    (hparam : req.params.state = some c) (hc : c ≠ "")
    (hcat : findStatic env (env.toUpperCase c) = some staticState)
    (hbody : req.body.funfacts = .arr facts) (hfacts : facts ≠ [])
    (hnext : next.params.state = some c) :
    ∃ (doc : OverlayRecord) (after : Store) (record : StateRecord),
      createNewFunfacts env store req = (Response.json (.document doc), after) ∧
      doc.funfacts
        = ((findOne store (env.toUpperCase c)).map (fun d => d.funfacts)).getD [] ++ facts ∧
      findOne after (env.toUpperCase c) = some doc ∧
      getState env after next = (Response.json (.state record), after) ∧
      record.funfacts = some doc.funfacts ∧
      ((∀ d, findOne store (env.toUpperCase c) = some d → d.funfacts = []) →
        record.funfacts = some facts) := by
  have hcreate := createNewFunfacts_valid env store req c staticState facts hparam hc hcat hbody
  generalize hprev :
    ((findOne store (env.toUpperCase c)).map (fun d => d.funfacts)).getD [] = prev at hcreate
  have hstored :
      findOne (save store (findOne store (env.toUpperCase c)).isNone
        ⟨env.toUpperCase c, prev ++ facts⟩) (env.toUpperCase c)
        = some ⟨env.toUpperCase c, prev ++ facts⟩ :=
    findOne_save store ⟨env.toUpperCase c, prev ++ facts⟩
  have hpos : (prev ++ facts).length > 0 := by
    have := List.length_pos.mpr hfacts
    simp only [List.length_append]
    omega
  refine ⟨_, _, { staticState with funfacts := some (prev ++ facts) }, hcreate, rfl, hstored,
    ?_, rfl, ?_⟩
  · rw [getState_valid env _ next c staticState hnext hc hcat, hstored]
    simp only [hpos, if_true]
  · intro hempty
    have : prev = [] := by
      rw [← hprev]
      cases hfind : findOne store (env.toUpperCase c) with
      | none => rfl
      | some d => simpa using hempty d hfind
    simp [this]

theorem updateFunfact_valid (env : Env) (store : Store) (req : Request) (c : String)
    (staticState : StateRecord) (index : JsNum) (f : String)
    (hparam : req.params.state = some c) (hc : c ≠ "")
    (hcat : findStatic env (env.toUpperCase c) = some staticState)
    (hindex : req.body.index = .num index) (hfact : req.body.funfact = .str f) (hf : f ≠ "") :
    updateFunfact env store req
      = match findOne store (env.toUpperCase c) with
        | none =>
          (Response.error 400 ("No Fun Facts found for " ++ env.getStateName (env.toUpperCase c)),
            store)
        | some stateRec =>
          if stateRec.funfacts.length = 0 then
            (Response.error 400
              ("No Fun Facts found for " ++ env.getStateName (env.toUpperCase c)), store)
          else if index.lt (.fin 1) || index.gt (.ofNat stateRec.funfacts.length) then
            (Response.error 400
              ("No Fun Fact found at that index for " ++ env.getStateName (env.toUpperCase c)),
              store)
          else
            (Response.json (.document
                { stateRec with funfacts := assignAt stateRec.funfacts index.subOne f }),
              save store false
                { stateRec with funfacts := assignAt stateRec.funfacts index.subOne f }) := by
  have hm := stateMissing_of_param hparam hc
  have hp := stateParam_of_param hparam
  unfold updateFunfact
  simp only [hm, hp, hcat, hindex, hfact, hf, Bool.false_eq_true, if_false]

theorem deleteFunfact_valid (env : Env) (store : Store) (req : Request) (c : String)
    (staticState : StateRecord)
    (hparam : req.params.state = some c) (hc : c ≠ "")
    (hcat : findStatic env (env.toUpperCase c) = some staticState)
    (hindex : req.body.index ≠ .undefined) :
    deleteFunfact env store req
      = match findOne store (env.toUpperCase c) with
        | none =>
          (Response.error 400 ("No Fun Facts found for " ++ env.getStateName (env.toUpperCase c)),
            store)
        | some stateRec =>
          if stateRec.funfacts.length = 0 then
            (Response.error 400
              ("No Fun Facts found for " ++ env.getStateName (env.toUpperCase c)), store)
          else if (req.body.index.toNumber env.stringToNumber).lt (.fin 1)
              || (req.body.index.toNumber env.stringToNumber).gt
                  (.ofNat stateRec.funfacts.length) then
            (Response.error 400
              ("No Fun Fact found at that index for " ++ env.getStateName (env.toUpperCase c)),
              store)
          else
            (Response.json (.document
                { stateRec with
                  funfacts := splice stateRec.funfacts
                    (req.body.index.toNumber env.stringToNumber).subOne 1 }),
              save store false
                { stateRec with
                  funfacts := splice stateRec.funfacts
                    (req.body.index.toNumber env.stringToNumber).subOne 1 }) := by
  have hm := stateMissing_of_param hparam hc
  have hp := stateParam_of_param hparam
  unfold deleteFunfact
  simp only [hm, hp, hcat, hindex, Bool.false_eq_true, if_false]
  cases hfind : findOne store (env.toUpperCase c) with
  | none => simp
  | some d => simp


theorem findOne_updateOne_of_found (store : Store) (d : OverlayRecord) (code : String)
    (xs : List String) (hfind : findOne store code = some d) :
    findOne (save store false ⟨d.stateCode, xs⟩) code = some ⟨d.stateCode, xs⟩ := by
  have hcode := findOne_code hfind
  have h := findOne_updateOne_self store ⟨d.stateCode, xs⟩ d (by simpa [hcode] using hfind)
  simpa [save, hcode] using h

/-- Claim C5, amended: for a valid code whose overlay list is non-empty with
length `n`, a number `index` and a non-empty string `f`, `updateFunfact` fails
with `No Fun Fact found at that index for <name>` when `index` is below 1 or
above `n` (the infinities included), and when `index` is an integer `i` with
`1 ≤ i ≤ n` the stored list keeps the length `n`, holds `f` at position
`i - 1` and equals the old list at every other position. -/
theorem updateFunfact_overwrites_at_index (env : Env) (store : Store) (req : Request)
    (c : String) (staticState : StateRecord) (d : OverlayRecord) (index : JsNum) (f : String)
    (hparam : req.params.state = some c) (hc : c ≠ "")
    (hcat : findStatic env (env.toUpperCase c) = some staticState)
    (hfind : findOne store (env.toUpperCase c) = some d) (hlist : d.funfacts ≠ [])
    (hindex : req.body.index = .num index) (hfact : req.body.funfact = .str f) (hf : f ≠ "") :
    ((index = .negInf ∨ index = .posInf ∨
        ∃ q : ℚ, index = .fin q ∧ (q < 1 ∨ (d.funfacts.length : ℚ) < q)) →
      updateFunfact env store req
        = (Response.error 400
            ("No Fun Fact found at that index for " ++ env.getStateName (env.toUpperCase c)),
            store)) ∧
    (∀ i : Nat, index = .fin (i : ℚ) → 1 ≤ i → i ≤ d.funfacts.length →
      ∃ (after : Store) (stored : List String),
        updateFunfact env store req = (Response.json (.document ⟨d.stateCode, stored⟩), after) ∧
        findOne after (env.toUpperCase c) = some ⟨d.stateCode, stored⟩ ∧
        stored.length = d.funfacts.length ∧
        stored[i - 1]? = some f ∧
        ∀ j : Nat, j ≠ i - 1 → stored[j]? = d.funfacts[j]?) := by
  have hlen : d.funfacts.length ≠ 0 := by
    intro h
    exact hlist (List.length_eq_zero.mp h)
  have hupd := updateFunfact_valid env store req c staticState index f hparam hc hcat hindex
    hfact hf
  rw [hfind] at hupd
  simp only [hlen, if_false] at hupd
  refine ⟨?_, ?_⟩
  · intro hout
    have hcheck : (index.lt (.fin 1) || index.gt (.ofNat d.funfacts.length)) = true := by
      rcases hout with rfl | rfl | ⟨q, rfl, hq⟩
      · simp [JsNum.lt]
      · simp [JsNum.lt, JsNum.gt, JsNum.ofNat]
      · rcases hq with hq | hq
        · simp [JsNum.lt, hq]
        · simp [JsNum.lt, JsNum.gt, JsNum.ofNat, hq]
    rw [hupd, if_pos hcheck]
  · intro i hi h1 h2
    subst hi
    have hcheck : ((JsNum.fin (i : ℚ)).lt (.fin 1)
        || (JsNum.fin (i : ℚ)).gt (.ofNat d.funfacts.length)) = false := by
      rw [lt_one_nat, gt_ofNat_nat]
      simp only [Bool.or_eq_false_iff, decide_eq_false_iff_not]
      omega
    rw [hcheck] at hupd
    simp only [Bool.false_eq_true, if_false] at hupd
    rw [assignAt_nat d.funfacts i f h1 h2] at hupd
    have hpos : i - 1 < d.funfacts.length := by omega
    refine ⟨_, d.funfacts.set (i - 1) f, hupd, ?_, by simp, ?_, ?_⟩
    · exact findOne_updateOne_of_found store d _ _ hfind
    · simp [List.getElem?_set, hpos]
    · intro j hj
      simp [List.getElem?_set, Ne.symm hj]

/-- Claim C6: for a valid code whose overlay list has length `n` and an
index that is the integer `i` with `1 ≤ i ≤ n`, `deleteFunfact` succeeds and
the stored list has length `n - 1` and is the old list without the element at
position `i - 1`: the elements before it followed by the elements after it, in
their original order. -/
theorem deleteFunfact_removes_at_index (env : Env) (store : Store) (req : Request)
    (c : String) (staticState : StateRecord) (d : OverlayRecord) (i : Nat)
    (hparam : req.params.state = some c) (hc : c ≠ "")
    (hcat : findStatic env (env.toUpperCase c) = some staticState)
    (hfind : findOne store (env.toUpperCase c) = some d)
    (hindex : req.body.index ≠ .undefined)
    (hnumber : req.body.index.toNumber env.stringToNumber = .fin (i : ℚ))
    (h1 : 1 ≤ i) (h2 : i ≤ d.funfacts.length) :
    ∃ (after : Store) (stored : List String),
      deleteFunfact env store req = (Response.json (.document ⟨d.stateCode, stored⟩), after) ∧
      findOne after (env.toUpperCase c) = some ⟨d.stateCode, stored⟩ ∧
      stored.length = d.funfacts.length - 1 ∧
      stored = d.funfacts.take (i - 1) ++ d.funfacts.drop i ∧
      stored = d.funfacts.eraseIdx (i - 1) := by
  have hlen : d.funfacts.length ≠ 0 := by omega
  have hdel := deleteFunfact_valid env store req c staticState hparam hc hcat hindex
  rw [hfind, hnumber] at hdel
  have hcheck : ((JsNum.fin (i : ℚ)).lt (.fin 1)
      || (JsNum.fin (i : ℚ)).gt (.ofNat d.funfacts.length)) = false := by
    rw [lt_one_nat, gt_ofNat_nat]
    simp only [Bool.or_eq_false_iff, decide_eq_false_iff_not]
    omega
  simp only [hlen, if_false, hcheck, Bool.false_eq_true] at hdel
  rw [splice_nat d.funfacts i h1 h2] at hdel
  have herase : d.funfacts.take (i - 1) ++ d.funfacts.drop i = d.funfacts.eraseIdx (i - 1) := by
    rw [List.eraseIdx_eq_take_drop_succ]
    have : i - 1 + 1 = i := by omega
    rw [this]
  refine ⟨_, _, hdel, findOne_updateOne_of_found store d _ _ hfind, ?_, rfl, herase⟩
  rw [herase, List.length_eraseIdx]
  have : i - 1 < d.funfacts.length := by omega
  simp [this]


/-- Claim C7: `updateFunfact` is idempotent. For every environment, store and
request, running it a second time on the store the first run left gives the
same response and the same store, hence the same stored list for the code. -/
theorem updateFunfact_idempotent (env : Env) (store : Store) (req : Request) :
    updateFunfact env (updateFunfact env store req).2 req = updateFunfact env store req := by
  by_cases hm : stateMissing req = true
  · simp [updateFunfact, hm]
  cases hcat : findStatic env (env.toUpperCase (stateParam req)) with
  | none => simp [updateFunfact, hm, hcat]
  | some staticState =>
    cases hindex : req.body.index with
    | num index =>
      cases hfact : req.body.funfact with
      | str f =>
        by_cases hf : f = ""
        · simp [updateFunfact, hm, hcat, hindex, hfact, hf]
        · cases hfind : findOne store (env.toUpperCase (stateParam req)) with
          | none => simp [updateFunfact, hm, hcat, hindex, hfact, hf, hfind]
          | some d =>
            by_cases hlen : d.funfacts.length = 0
            · simp [updateFunfact, hm, hcat, hindex, hfact, hf, hfind, hlen]
            · by_cases hcheck :
                (index.lt (.fin 1) || index.gt (.ofNat d.funfacts.length)) = true
              · have hfirst : updateFunfact env store req
                    = (Response.error 400 ("No Fun Fact found at that index for "
                        ++ env.getStateName (env.toUpperCase (stateParam req))), store) := by
                  unfold updateFunfact
                  simp only [hm, hcat, hindex, hfact, hf, hfind, hlen, if_false, Bool.false_eq_true]
                  rw [if_pos hcheck]
                rw [hfirst]
                exact hfirst
              · have hfirst : updateFunfact env store req
                    = (Response.json (.document
                        ⟨d.stateCode, assignAt d.funfacts index.subOne f⟩),
                      save store false ⟨d.stateCode, assignAt d.funfacts index.subOne f⟩) := by
                  unfold updateFunfact
                  simp only [hm, hcat, hindex, hfact, hf, hfind, hlen, if_false, Bool.false_eq_true]
                  rw [if_neg hcheck]
                have hstored := findOne_updateOne_of_found store d _
                  (assignAt d.funfacts index.subOne f) hfind
                have hlen2 : (assignAt d.funfacts index.subOne f).length ≠ 0 := by
                  rw [length_assignAt]
                  exact hlen
                have hcheck2 : ¬ (index.lt (.fin 1)
                    || index.gt (.ofNat (assignAt d.funfacts index.subOne f).length)) = true := by
                  rw [length_assignAt]
                  exact hcheck
                rw [hfirst]
                unfold updateFunfact
                simp only [hm, hcat, hindex, hfact, hf, hstored, hlen2, if_false, Bool.false_eq_true]
                rw [if_neg hcheck2]
                simp only [assignAt_idem]
                simp [save, updateOne_idem]
      | _ => simp [updateFunfact, hm, hcat, hindex, hfact]
    | _ => simp [updateFunfact, hm, hcat, hindex]


/-- Claim C8, amended: for a valid code whose overlay list has length `n`
(`n = 0` when there is no record), `updateFunfact` and `deleteFunfact` called
with index `0` or `n + 1` and an otherwise valid payload both fail with
`No Fun Fact found at that index for <name>` when `n ≥ 1`, and both fail with
`No Fun Facts found for <name>` when `n = 0`. -/
theorem boundary_index_errors (env : Env) (store : Store) (req : Request) (c : String)
    (staticState : StateRecord) (f : String) (n : Nat)
    (hparam : req.params.state = some c) (hc : c ≠ "")
    (hcat : findStatic env (env.toUpperCase c) = some staticState)
    (hn : ((findOne store (env.toUpperCase c)).map (fun d => d.funfacts.length)).getD 0 = n)
    (hfact : req.body.funfact = .str f) (hf : f ≠ "")
    (hindex : req.body.index = .num (.fin 0) ∨ req.body.index = .num (.fin ((n : ℚ) + 1))) :
    (0 < n →
      updateFunfact env store req
        = (Response.error 400
            ("No Fun Fact found at that index for " ++ env.getStateName (env.toUpperCase c)),
            store) ∧
      deleteFunfact env store req
        = (Response.error 400
            ("No Fun Fact found at that index for " ++ env.getStateName (env.toUpperCase c)),
            store)) ∧
    (n = 0 →
      updateFunfact env store req
        = (Response.error 400
            ("No Fun Facts found for " ++ env.getStateName (env.toUpperCase c)), store) ∧
      deleteFunfact env store req
        = (Response.error 400
            ("No Fun Facts found for " ++ env.getStateName (env.toUpperCase c)), store)) := by
  obtain ⟨index, hnum, hval⟩ : ∃ index : JsNum, req.body.index = .num index ∧
      (index = .fin 0 ∨ index = .fin ((n : ℚ) + 1)) := by
    rcases hindex with h | h
    · exact ⟨_, h, Or.inl rfl⟩
    · exact ⟨_, h, Or.inr rfl⟩
  have hdef : req.body.index ≠ .undefined := by rw [hnum]; simp
  have hupd := updateFunfact_valid env store req c staticState index f hparam hc hcat hnum
    hfact hf
  have hdel := deleteFunfact_valid env store req c staticState hparam hc hcat hdef
  rw [hnum] at hdel
  simp only [JsValue.toNumber] at hdel
  cases hfind : findOne store (env.toUpperCase c) with
  | none =>
    rw [hfind] at hupd hdel hn
    simp only [Option.map_none', Option.getD_none] at hn
    subst hn
    exact ⟨fun h => absurd h (by omega), fun _ => ⟨hupd, hdel⟩⟩
  | some d =>
    rw [hfind] at hupd hdel hn
    simp only [Option.map_some', Option.getD_some] at hn
    refine ⟨?_, ?_⟩
    · intro hpos
      have hlen : d.funfacts.length ≠ 0 := by omega
      have hcheck : (index.lt (.fin 1) || index.gt (.ofNat d.funfacts.length)) = true := by
        rcases hval with rfl | rfl
        · simp [JsNum.lt]
        · simp [JsNum.lt, JsNum.gt, JsNum.ofNat, hn]
      simp only [hlen, if_false, hcheck, if_true] at hupd hdel
      exact ⟨hupd, hdel⟩
    · intro hzero
      have hlen : d.funfacts.length = 0 := by omega
      simp only [hlen, if_true] at hupd hdel
      exact ⟨hupd, hdel⟩

theorem createNewFunfacts_store_or_ok (env : Env) (store : Store) (req : Request) :
    (createNewFunfacts env store req).2 = store
      ∨ (createNewFunfacts env store req).1.status = 200 := by
  unfold createNewFunfacts
  by_cases hm : stateMissing req = true
  · simp [hm]
  · cases hcat : findStatic env (env.toUpperCase (stateParam req)) with
    | none => simp [hm, hcat]
    | some staticState =>
      cases hbody : req.body.funfacts <;>
        simp [hm, hcat, hbody, JsValue.truthy, Response.json] <;> split <;> simp

theorem updateFunfact_store_or_ok (env : Env) (store : Store) (req : Request) :
    (updateFunfact env store req).2 = store
      ∨ (updateFunfact env store req).1.status = 200 := by
  unfold updateFunfact
  by_cases hm : stateMissing req = true
  · simp [hm]
  · cases hcat : findStatic env (env.toUpperCase (stateParam req)) with
    | none => simp [hm, hcat]
    | some staticState =>
      cases hindex : req.body.index with
      | num index =>
        cases hfact : req.body.funfact with
        | str f =>
          cases hfind : findOne store (env.toUpperCase (stateParam req)) with
          | none =>
            by_cases hf : f = "" <;> simp [hm, hcat, hindex, hfact, hfind, hf]
          | some d =>
            by_cases hf : f = ""
            · simp [hm, hcat, hindex, hfact, hfind, hf]
            · by_cases hlen : d.funfacts.length = 0
              · simp [hm, hcat, hindex, hfact, hfind, hf, hlen]
              · by_cases hcheck :
                  (index.lt (.fin 1) || index.gt (.ofNat d.funfacts.length)) = true
                · simp only [hm, hcat, hindex, hfact, hfind, hf, hlen, if_false]
                  rw [if_pos hcheck]
                  simp
                · simp only [hm, hcat, hindex, hfact, hfind, hf, hlen, if_false]
                  rw [if_neg hcheck]
                  simp [Response.json]
        | _ => simp [hm, hcat, hindex, hfact]
      | _ => simp [hm, hcat, hindex]

theorem deleteFunfact_store_or_ok (env : Env) (store : Store) (req : Request) :
    (deleteFunfact env store req).2 = store
      ∨ (deleteFunfact env store req).1.status = 200 := by
  unfold deleteFunfact
  by_cases hm : stateMissing req = true
  · simp [hm]
  · cases hcat : findStatic env (env.toUpperCase (stateParam req)) with
    | none => simp [hm, hcat]
    | some staticState =>
      simp only [hm, hcat, if_false, Bool.false_eq_true]
      split
      · simp
      · split
        · simp
        · split <;> simp [Response.json]

/-- Claim C10: whenever `createNewFunfacts`, `updateFunfact` or
`deleteFunfact` answers with an error (a status other than 200), the store
after the call is the store before it. -/
theorem mutation_error_leaves_store (env : Env) (store : Store) (req : Request) :
    ((createNewFunfacts env store req).1.status ≠ 200 →
      (createNewFunfacts env store req).2 = store) ∧
    ((updateFunfact env store req).1.status ≠ 200 →
      (updateFunfact env store req).2 = store) ∧
    ((deleteFunfact env store req).1.status ≠ 200 →
      (deleteFunfact env store req).2 = store) :=
  ⟨fun h => (createNewFunfacts_store_or_ok env store req).resolve_right h,
   fun h => (updateFunfact_store_or_ok env store req).resolve_right h,
   fun h => (deleteFunfact_store_or_ok env store req).resolve_right h⟩

/-! ## The handlers on the small instance -/

/-- Witness of C4: the first addition of the end-to-end example. -/
theorem createNewFunfacts_then_getState_witness :
    ∃ (doc : OverlayRecord) (after : Store) (record : StateRecord),
      createNewFunfacts demoEnv [] addRequest = (Response.json (.document doc), after) ∧
      doc.funfacts
        = ((findOne [] (demoEnv.toUpperCase "ks")).map (fun d => d.funfacts)).getD []
            ++ ["Fact A", "Fact B"] ∧
      findOne after (demoEnv.toUpperCase "ks") = some doc ∧
      getState demoEnv after (codeRequest "ks") = (Response.json (.state record), after) ∧
      record.funfacts = some doc.funfacts ∧
      ((∀ d, findOne [] (demoEnv.toUpperCase "ks") = some d → d.funfacts = []) →
        record.funfacts = some ["Fact A", "Fact B"]) :=
  createNewFunfacts_then_getState demoEnv [] addRequest (codeRequest "ks") "ks" kansas
    ["Fact A", "Fact B"] rfl (by decide) (by decide) rfl (by decide) rfl

/-- Counterexample to C5 as stated: the index `3/2` is a number and lies in
`[1, 2]`, yet `updateFunfact` answers 200 and stores the two facts unchanged,
so the new fact is at no position of the stored list. -/
theorem updateFunfact_fractional_index_counterexample :
    (1 : ℚ) ≤ 3 / 2 ∧ (3 / 2 : ℚ) ≤ 2 ∧
    updateFunfact demoEnv kansasStore (replaceRequest (.fin (3 / 2)))
      = (Response.json (.document ⟨"KS", ["Fact A", "Fact B"]⟩), kansasStore) ∧
    "Fact A2" ∉ ["Fact A", "Fact B"] :=
  ⟨by norm_num, by norm_num, by decide!, by decide⟩

/-- Witness of C5: replacing the first fact of the end-to-end example. -/
theorem updateFunfact_overwrites_at_index_witness :
    ((JsNum.fin 1 = .negInf ∨ JsNum.fin 1 = .posInf ∨
        ∃ q : ℚ, JsNum.fin 1 = .fin q ∧ (q < 1 ∨ ((["Fact A", "Fact B"].length : ℕ) : ℚ) < q)) →
      updateFunfact demoEnv kansasStore (replaceRequest (.fin 1))
        = (Response.error 400
            ("No Fun Fact found at that index for "
              ++ demoEnv.getStateName (demoEnv.toUpperCase "ks")),
            kansasStore)) ∧
    (∀ i : Nat, JsNum.fin 1 = .fin (i : ℚ) → 1 ≤ i → i ≤ ["Fact A", "Fact B"].length →
      ∃ (after : Store) (stored : List String),
        updateFunfact demoEnv kansasStore (replaceRequest (.fin 1))
          = (Response.json (.document ⟨"KS", stored⟩), after) ∧
        findOne after (demoEnv.toUpperCase "ks") = some ⟨"KS", stored⟩ ∧
        stored.length = ["Fact A", "Fact B"].length ∧
        stored[i - 1]? = some "Fact A2" ∧
        ∀ j : Nat, j ≠ i - 1 → stored[j]? = ["Fact A", "Fact B"][j]?) :=
  updateFunfact_overwrites_at_index demoEnv kansasStore (replaceRequest (.fin 1)) "ks" kansas
    ⟨"KS", ["Fact A", "Fact B"]⟩ (.fin 1) "Fact A2" rfl (by decide) (by decide) (by decide)
    (by decide) rfl rfl (by decide)

/-- Witness of C6: removing the second fact of the end-to-end example. -/
theorem deleteFunfact_removes_at_index_witness :
    ∃ (after : Store) (stored : List String),
      deleteFunfact demoEnv [⟨"KS", ["Fact A2", "Fact B"]⟩]
          (removeRequest (.num (.fin ((2 : ℕ) : ℚ))))
        = (Response.json (.document ⟨"KS", stored⟩), after) ∧
      findOne after (demoEnv.toUpperCase "ks") = some ⟨"KS", stored⟩ ∧
      stored.length = ["Fact A2", "Fact B"].length - 1 ∧
      stored = ["Fact A2", "Fact B"].take (2 - 1) ++ ["Fact A2", "Fact B"].drop 2 ∧
      stored = ["Fact A2", "Fact B"].eraseIdx (2 - 1) :=
  deleteFunfact_removes_at_index demoEnv [⟨"KS", ["Fact A2", "Fact B"]⟩]
    (removeRequest (.num (.fin ((2 : ℕ) : ℚ)))) "ks" kansas ⟨"KS", ["Fact A2", "Fact B"]⟩ 2
    rfl (by decide) (by decide) (by decide) (by decide) rfl (by decide) (by decide)

/-- Counterexample to C8 as stated: with no overlay record (`n = 0`) the index
`0` makes both handlers answer `No Fun Facts found for Kansas`, which is not
the index error. -/
theorem boundary_index_counterexample :
    updateFunfact demoEnv [] (replaceRequest (.fin 0))
      = (Response.error 400 "No Fun Facts found for Kansas", []) ∧
    deleteFunfact demoEnv [] (removeRequest (.num (.fin 0)))
      = (Response.error 400 "No Fun Facts found for Kansas", []) ∧
    Response.error 400 "No Fun Facts found for Kansas"
      ≠ Response.error 400 "No Fun Fact found at that index for Kansas" :=
  ⟨by decide, by decide, by decide⟩

/-- Witness of C8: index `0` on the two facts of the example store. -/
theorem boundary_index_errors_witness :
    (0 < 2 →
      updateFunfact demoEnv kansasStore (replaceRequest (.fin 0))
        = (Response.error 400
            ("No Fun Fact found at that index for "
              ++ demoEnv.getStateName (demoEnv.toUpperCase "ks")),
            kansasStore) ∧
      deleteFunfact demoEnv kansasStore (replaceRequest (.fin 0))
        = (Response.error 400
            ("No Fun Fact found at that index for "
              ++ demoEnv.getStateName (demoEnv.toUpperCase "ks")),
            kansasStore)) ∧
    (2 = 0 →
      updateFunfact demoEnv kansasStore (replaceRequest (.fin 0))
        = (Response.error 400
            ("No Fun Facts found for " ++ demoEnv.getStateName (demoEnv.toUpperCase "ks")),
            kansasStore) ∧
      deleteFunfact demoEnv kansasStore (replaceRequest (.fin 0))
        = (Response.error 400
            ("No Fun Facts found for " ++ demoEnv.getStateName (demoEnv.toUpperCase "ks")),
            kansasStore)) :=
  boundary_index_errors demoEnv kansasStore (replaceRequest (.fin 0)) "ks" kansas "Fact A2" 2
    rfl (by decide) (by decide) (by decide) rfl (by decide) (Or.inl rfl)

/-- The failing input of C9: an `index` that is an object converts to `NaN`,
passes both comparisons of the range check, and `deleteFunfact` answers 200
after removing the first fact. -/
theorem deleteFunfact_object_index_removes_first :
    deleteFunfact demoEnv kansasStore (removeRequest .obj)
      = (Response.json (.document ⟨"KS", ["Fact B"]⟩), [⟨"KS", ["Fact B"]⟩]) := by
  decide

/-- Witness of C10: deleting index 5 from the one-element list of the
end-to-end example fails and leaves the list as it was. -/
theorem mutation_error_leaves_store_witness :
    (deleteFunfact demoEnv [⟨"KS", ["Fact A2"]⟩] (removeRequest (.num (.fin 5)))).1
      = Response.error 400 "No Fun Fact found at that index for Kansas" ∧
    (deleteFunfact demoEnv [⟨"KS", ["Fact A2"]⟩] (removeRequest (.num (.fin 5)))).2
      = [⟨"KS", ["Fact A2"]⟩] :=
  ⟨by decide!,
    (mutation_error_leaves_store demoEnv [⟨"KS", ["Fact A2"]⟩]
      (removeRequest (.num (.fin 5)))).2.2 (by decide!)⟩

/-! ## Code validation comes first -/

/-- Claim C11: for `getState`, `getFunfact`, `createNewFunfacts`,
`updateFunfact` and `deleteFunfact`, an absent or empty code parameter gives
the 400 `State code required.` error, and a code whose uppercase form is not
in the catalog gives a 400 invalid-code error; in both cases the store comes
back as it was given and the response is the same for every two stores, so
it is decided without the store. -/
theorem code_errors_before_store (env : Env) (store₁ store₂ : Store) (random : ℚ)
    (req : Request) :
    (stateMissing req = true →
      getState env store₁ req = (Response.error 400 "State code required.", store₁) ∧
      getFunfact env store₁ random req = (Response.error 400 "State code required.", store₁) ∧
      createNewFunfacts env store₁ req
        = (Response.error 400 "State code required.", store₁) ∧
      updateFunfact env store₁ req = (Response.error 400 "State code required.", store₁) ∧
      deleteFunfact env store₁ req = (Response.error 400 "State code required.", store₁)) ∧
    (stateMissing req = false → findStatic env (env.toUpperCase (stateParam req)) = none →
      getState env store₁ req
        = (Response.error 400 "Invalid state abbreviation parameter", store₁) ∧
      getFunfact env store₁ random req
        = (Response.error 400 "Invalid state abbreviation parameter", store₁) ∧
      createNewFunfacts env store₁ req
        = (Response.error 400 ("No state matches code " ++ stateParam req ++ "."), store₁) ∧
      updateFunfact env store₁ req
        = (Response.error 400 ("No state matches code " ++ stateParam req ++ "."), store₁) ∧
      deleteFunfact env store₁ req
        = (Response.error 400 ("No state matches code " ++ stateParam req ++ "."), store₁)) ∧
    ((stateMissing req = true ∨ findStatic env (env.toUpperCase (stateParam req)) = none) →
      (getState env store₁ req).1 = (getState env store₂ req).1 ∧
      (getFunfact env store₁ random req).1 = (getFunfact env store₂ random req).1 ∧
      (createNewFunfacts env store₁ req).1 = (createNewFunfacts env store₂ req).1 ∧
      (updateFunfact env store₁ req).1 = (updateFunfact env store₂ req).1 ∧
      (deleteFunfact env store₁ req).1 = (deleteFunfact env store₂ req).1) := by
  refine ⟨?_, ?_, ?_⟩
  · intro hm
    simp [getState, getFunfact, createNewFunfacts, updateFunfact, deleteFunfact, hm]
  · intro hm hcat
    simp [getState, getFunfact, createNewFunfacts, updateFunfact, deleteFunfact, hm, hcat]
  · intro h
    by_cases hm : stateMissing req = true
    · simp [getState, getFunfact, createNewFunfacts, updateFunfact, deleteFunfact, hm]
    · have hcat : findStatic env (env.toUpperCase (stateParam req)) = none :=
        h.resolve_left hm
      simp [getState, getFunfact, createNewFunfacts, updateFunfact, deleteFunfact, hm, hcat]

/-! ## Case-insensitive matching -/

theorem stateMissing_of_empty {req : Request} (hparam : req.params.state = some "") :
    stateMissing req = true := by
  simp [stateMissing, hparam]

/-- Claim C12, amended: for two code strings with the same uppercase form
(both empty or both not), the same body and the same random draw, `getState`
and `getFunfact` give the same response and store; the three mutations leave
the same store, and give the same response when the code is empty or its
uppercase form is in the catalog; when it is not in the catalog each mutation
answers `No state matches code <code as typed>.` with the store unchanged. -/
theorem case_insensitive_matching (env : Env) (store : Store) (random : ℚ)
    (req₁ req₂ : Request) (s t : String)
    (h₁ : req₁.params.state = some s) (h₂ : req₂.params.state = some t)
    (hempty : s = "" ↔ t = "") (hupper : env.toUpperCase s = env.toUpperCase t)
    (hbody : req₁.body = req₂.body) :
    getState env store req₁ = getState env store req₂ ∧
    getFunfact env store random req₁ = getFunfact env store random req₂ ∧
    ((s = "" ∨ findStatic env (env.toUpperCase s) ≠ none) →
      createNewFunfacts env store req₁ = createNewFunfacts env store req₂ ∧
      updateFunfact env store req₁ = updateFunfact env store req₂ ∧
      deleteFunfact env store req₁ = deleteFunfact env store req₂) ∧
    ((s ≠ "" ∧ findStatic env (env.toUpperCase s) = none) →
      createNewFunfacts env store req₁
        = (Response.error 400 ("No state matches code " ++ s ++ "."), store) ∧
      createNewFunfacts env store req₂
        = (Response.error 400 ("No state matches code " ++ t ++ "."), store) ∧
      updateFunfact env store req₁
        = (Response.error 400 ("No state matches code " ++ s ++ "."), store) ∧
      updateFunfact env store req₂
        = (Response.error 400 ("No state matches code " ++ t ++ "."), store) ∧
      deleteFunfact env store req₁
        = (Response.error 400 ("No state matches code " ++ s ++ "."), store) ∧
      deleteFunfact env store req₂
        = (Response.error 400 ("No state matches code " ++ t ++ "."), store)) ∧
    (createNewFunfacts env store req₁).2 = (createNewFunfacts env store req₂).2 ∧
    (updateFunfact env store req₁).2 = (updateFunfact env store req₂).2 ∧
    (deleteFunfact env store req₁).2 = (deleteFunfact env store req₂).2 := by
  have hp₁ := stateParam_of_param h₁
  have hp₂ := stateParam_of_param h₂
  by_cases hs : s = ""
  · have ht : t = "" := hempty.mp hs
    subst hs
    subst ht
    have hm₁ := stateMissing_of_empty h₁
    have hm₂ := stateMissing_of_empty h₂
    simp [getState, getFunfact, createNewFunfacts, updateFunfact, deleteFunfact, hm₁, hm₂]
  · have ht : t ≠ "" := fun h => hs (hempty.mpr h)
    have hm₁ := stateMissing_of_param h₁ hs
    have hm₂ := stateMissing_of_param h₂ ht
    cases hcat : findStatic env (env.toUpperCase t) with
    | none =>
      simp [getState, getFunfact, createNewFunfacts, updateFunfact, deleteFunfact, hm₁, hm₂,
        hp₁, hp₂, hupper, hcat, hs]
    | some staticState =>
      simp [getState, getFunfact, createNewFunfacts, updateFunfact, deleteFunfact, hm₁, hm₂,
        hp₁, hp₂, hupper, hcat, hs, hbody]

/-! ## Removing the last fact -/

/-- Claim C14: for a valid code whose overlay list has exactly one element,
`deleteFunfact` with index 1 succeeds and leaves the overlay document of the
code in the store with an empty list; a following `getState` for the code
answers with the catalog record itself, so with the catalog's default
`funfacts`. -/
theorem deleteFunfact_last_fact (env : Env) (store : Store) (req next : Request) (c : String)
    (staticState : StateRecord) (d : OverlayRecord) (fact : String)
    (hparam : req.params.state = some c) (hc : c ≠ "")
    (hcat : findStatic env (env.toUpperCase c) = some staticState)
    (hfind : findOne store (env.toUpperCase c) = some d) (hone : d.funfacts = [fact])
    (hindex : req.body.index = .num (.fin 1)) (hnext : next.params.state = some c) :
    ∃ after : Store,
      deleteFunfact env store req = (Response.json (.document ⟨d.stateCode, []⟩), after) ∧
      findOne after (env.toUpperCase c) = some ⟨d.stateCode, []⟩ ∧
      getState env after next = (Response.json (.state staticState), after) := by
  have hdef : req.body.index ≠ .undefined := by rw [hindex]; simp
  have hdel := deleteFunfact_valid env store req c staticState hparam hc hcat hdef
  rw [hfind, hindex] at hdel
  have hsplice : splice d.funfacts (JsNum.fin 1).subOne 1 = [] := by
    have h := splice_nat d.funfacts 1 (le_refl 1) (by simp [hone])
    simp only [Nat.cast_one] at h
    rw [h, hone]
    rfl
  have hcheck : ((JsNum.fin 1).lt (.fin 1) || (JsNum.fin 1).gt (.ofNat d.funfacts.length))
      = false := by
    simp [JsNum.lt, JsNum.gt, JsNum.ofNat, hone]
  have hlen : d.funfacts.length ≠ 0 := by simp [hone]
  simp only [JsValue.toNumber, hlen, if_false, hcheck, Bool.false_eq_true, hsplice] at hdel
  have hstored := findOne_updateOne_of_found store d (env.toUpperCase c) [] hfind
  refine ⟨_, hdel, hstored, ?_⟩
  rw [getState_valid env _ next c staticState hnext hc hcat, hstored]
  simp

/-! ## The middleware `isValidStateCode` -/

theorem isValidStateCode_present (env : Env) (req : Request) (c : String)
    (hparam : req.params.state = some c) (hc : c ≠ "") :
    isValidStateCode env req
      = .ok (decide (env.toUpperCase c ∈ env.statesJson.map (fun s => s.code))) := by
  have hm := stateMissing_of_param hparam hc
  have hp := stateParam_of_param hparam
  simp [isValidStateCode, hm, hp, List.contains_eq_any_beq]

theorem isValidStateCode_missing (env : Env) (req : Request) (hm : stateMissing req = true) :
    isValidStateCode env req = .error "ReferenceError: res is not defined" := by
  simp [isValidStateCode, hm]

/-- The failing input of C15: for a request that carries no state code the
middleware does not return `false`; it throws, because its 400 branch uses a
`res` that the module does not define. -/
theorem isValidStateCode_without_code_throws :
    isValidStateCode demoEnv (contigRequest none)
      = .error "ReferenceError: res is not defined" ∧
    isValidStateCode demoEnv (contigRequest none) ≠ .ok false := by
  have h : isValidStateCode demoEnv (contigRequest none)
      = .error "ReferenceError: res is not defined" := rfl
  refine ⟨h, ?_⟩
  rw [h]
  intro hne
  cases hne

/-! ## What a mutation does to the store -/

theorem map_stateCode_updateOne (store : Store) (doc : OverlayRecord) :
    (updateOne store doc).map (fun d => d.stateCode) = store.map (fun d => d.stateCode) := by
  induction store with
  | nil => rfl
  | cons e es ih =>
    by_cases he : e.stateCode = doc.stateCode
    · simp [updateOne, he]
    · simp [updateOne, he, ih]

theorem findOne_updateOne_other (store : Store) (doc : OverlayRecord) (code : String)
    (h : code ≠ doc.stateCode) : findOne (updateOne store doc) code = findOne store code := by
  induction store with
  | nil => rfl
  | cons e es ih =>
    by_cases he : e.stateCode = doc.stateCode
    · have h1 : ¬ doc.stateCode = code := fun hh => h hh.symm
      have h2 : ¬ e.stateCode = code := by rw [he]; exact h1
      simp [updateOne, findOne, List.find?_cons, he, h1]
    · by_cases hc : e.stateCode = code
      · subst hc
        simp [updateOne, findOne, List.find?_cons, he]
      · have := ih
        simp only [findOne] at this
        simp [updateOne, findOne, List.find?_cons, he, hc, this]

theorem findOne_append_other (store : Store) (doc : OverlayRecord) (code : String)
    (h : code ≠ doc.stateCode) : findOne (store ++ [doc]) code = findOne store code := by
  have h1 : ¬ doc.stateCode = code := fun hh => h hh.symm
  unfold findOne
  rw [List.find?_append]
  cases List.find? (fun d => d.stateCode == code) store with
  | none => simp [List.find?_cons, h1]
  | some d => rfl

theorem updateOne_self (store : Store) (d : OverlayRecord) (code : String)
    (h : findOne store code = some d) : updateOne store d = store := by
  have hcode := findOne_code h
  subst hcode
  induction store with
  | nil => simp [findOne] at h
  | cons e es ih =>
    by_cases he : e.stateCode = d.stateCode
    · have : e = d := by simpa [findOne, List.find?_cons, he] using h
      simp [updateOne, this]
    · have h' : findOne es d.stateCode = some d := by
        simpa [findOne, List.find?_cons, he] using h
      simp [updateOne, he, ih h']

theorem findStatic_code {env : Env} {code : String} {s : StateRecord}
    (h : findStatic env code = some s) : s.code = code ∧ s ∈ env.statesJson := by
  refine ⟨?_, List.mem_of_find?_eq_some h⟩
  have := List.find?_some h
  simpa using this

theorem not_mem_codes_of_findOne_none {store : Store} {code : String}
    (h : findOne store code = none) : code ∉ store.map (fun d => d.stateCode) := by
  intro hmem
  obtain ⟨d, hd, hcode⟩ := List.mem_map.mp hmem
  have := List.find?_eq_none.mp h d hd
  simp [hcode] at this

theorem createNewFunfacts_shape (env : Env) (store : Store) (req : Request) :
    (createNewFunfacts env store req).2 = store ∨
    (∃ (d : OverlayRecord) (xs : List String),
      findOne store (env.toUpperCase (stateParam req)) = some d ∧
      (createNewFunfacts env store req).2 = updateOne store ⟨d.stateCode, xs⟩) ∨
    (∃ (s : StateRecord) (xs : List String),
      findStatic env (env.toUpperCase (stateParam req)) = some s ∧
      findOne store (env.toUpperCase (stateParam req)) = none ∧
      (createNewFunfacts env store req).2
        = store ++ [⟨env.toUpperCase (stateParam req), xs⟩]) := by
  unfold createNewFunfacts
  by_cases hm : stateMissing req = true
  · simp [hm]
  · cases hcat : findStatic env (env.toUpperCase (stateParam req)) with
    | none => simp [hm, hcat]
    | some staticState =>
      cases hbody : req.body.funfacts with
      | arr facts =>
        cases hfind : findOne store (env.toUpperCase (stateParam req)) with
        | none =>
          right; right
          exact ⟨staticState, [] ++ facts, rfl, rfl,
            by simp [hm, hcat, hbody, hfind, JsValue.truthy, save]⟩
        | some d =>
          right; left
          exact ⟨d, d.funfacts ++ facts, rfl,
            by simp [hm, hcat, hbody, hfind, JsValue.truthy, save]⟩
      | _ => left; simp [hm, hcat, hbody, JsValue.truthy] <;> split <;> rfl

theorem updateFunfact_shape (env : Env) (store : Store) (req : Request) :
    (updateFunfact env store req).2 = store ∨
    ∃ (d : OverlayRecord) (xs : List String),
      findOne store (env.toUpperCase (stateParam req)) = some d ∧
      (updateFunfact env store req).2 = updateOne store ⟨d.stateCode, xs⟩ := by
  unfold updateFunfact
  by_cases hm : stateMissing req = true
  · simp [hm]
  · cases hcat : findStatic env (env.toUpperCase (stateParam req)) with
    | none => simp [hm, hcat]
    | some staticState =>
      cases hindex : req.body.index with
      | num index =>
        cases hfact : req.body.funfact with
        | str f =>
          cases hfind : findOne store (env.toUpperCase (stateParam req)) with
          | none =>
            by_cases hf : f = "" <;> simp [hm, hcat, hindex, hfact, hfind, hf]
          | some d =>
            by_cases hf : f = ""
            · simp [hm, hcat, hindex, hfact, hfind, hf]
            · by_cases hlen : d.funfacts.length = 0
              · simp [hm, hcat, hindex, hfact, hfind, hf, hlen]
              · by_cases hcheck :
                  (index.lt (.fin 1) || index.gt (.ofNat d.funfacts.length)) = true
                · simp only [hm, hcat, hindex, hfact, hfind, hf, hlen, if_false]
                  rw [if_pos hcheck]
                  simp
                · simp only [hm, hcat, hindex, hfact, hfind, hf, hlen, if_false]
                  rw [if_neg hcheck]
                  right
                  exact ⟨d, assignAt d.funfacts index.subOne f, rfl, by simp [save]⟩
        | _ => simp [hm, hcat, hindex, hfact]
      | _ => simp [hm, hcat, hindex]

theorem deleteFunfact_shape (env : Env) (store : Store) (req : Request) :
    (deleteFunfact env store req).2 = store ∨
    ∃ (d : OverlayRecord) (xs : List String),
      findOne store (env.toUpperCase (stateParam req)) = some d ∧
      (deleteFunfact env store req).2 = updateOne store ⟨d.stateCode, xs⟩ := by
  unfold deleteFunfact
  by_cases hm : stateMissing req = true
  · simp [hm]
  · cases hcat : findStatic env (env.toUpperCase (stateParam req)) with
    | none => simp [hm, hcat]
    | some staticState =>
      cases hfind : findOne store (env.toUpperCase (stateParam req)) with
      | none =>
        simp only [hm, hcat, hfind, if_false, Bool.false_eq_true]
        split <;> simp
      | some d =>
        simp only [hm, hcat, hfind, if_false, Bool.false_eq_true, Option.getD_some,
          Option.isNone_some]
        split
        · simp
        · split
          · simp
          · split
            · simp
            · right
              exact ⟨d, splice d.funfacts
                (JsValue.toNumber env.stringToNumber req.body.index).subOne 1, rfl,
                by simp [save]⟩

/-! ## The store invariant -/

theorem storeInvariant_iff_codes (env : Env) (store : Store) :
    StoreInvariant env store ↔
      (∀ c ∈ store.map (fun d => d.stateCode), c ∈ env.statesJson.map (fun s => s.code)) ∧
      (store.map (fun d => d.stateCode)).Nodup := by
  unfold StoreInvariant
  constructor
  · rintro ⟨h1, h2⟩
    refine ⟨?_, h2⟩
    intro c hc
    obtain ⟨d, hd, rfl⟩ := List.mem_map.mp hc
    exact h1 d hd
  · rintro ⟨h1, h2⟩
    exact ⟨fun d hd => h1 _ (List.mem_map.mpr ⟨d, hd, rfl⟩), h2⟩

theorem storeInvariant_of_codes_eq (env : Env) {store after : Store}
    (hcodes : after.map (fun d => d.stateCode) = store.map (fun d => d.stateCode))
    (hinv : StoreInvariant env store) : StoreInvariant env after := by
  rw [storeInvariant_iff_codes] at hinv ⊢
  rw [hcodes]
  exact hinv

theorem storeInvariant_append (env : Env) {store : Store} {code : String} {s : StateRecord}
    (xs : List String) (hcat : findStatic env code = some s) (hfind : findOne store code = none)
    (hinv : StoreInvariant env store) : StoreInvariant env (store ++ [⟨code, xs⟩]) := by
  rw [storeInvariant_iff_codes] at hinv ⊢
  obtain ⟨hcode, hmem⟩ := findStatic_code hcat
  have hnew : code ∈ env.statesJson.map (fun s => s.code) :=
    List.mem_map.mpr ⟨s, hmem, hcode⟩
  have hfresh := not_mem_codes_of_findOne_none hfind
  simp only [List.map_append, List.map_cons, List.map_nil]
  refine ⟨?_, ?_⟩
  · intro c hc
    rcases List.mem_append.mp hc with h | h
    · exact hinv.1 c h
    · simp only [List.mem_singleton] at h
      rw [h]
      exact hnew
  · rw [List.nodup_append]
    refine ⟨hinv.2, List.nodup_singleton _, ?_⟩
    intro a ha hb
    simp only [List.mem_singleton] at hb
    exact hfresh (hb ▸ ha)

/-- Claim C16: from a store in which every `stateCode` is a catalog code and
no two documents share a `stateCode`, each of `createNewFunfacts`,
`updateFunfact` and `deleteFunfact`, on any request, leaves a store with the
same two properties. `updateFunfact` and `deleteFunfact` keep the list of
document codes as it is; `createNewFunfacts` keeps it or, only when the code
had no document, adds that one code at the end. No document is removed. -/
theorem store_invariant_preserved (env : Env) (store : Store) (req : Request)
    (hinv : StoreInvariant env store) :
    StoreInvariant env (createNewFunfacts env store req).2 ∧
    StoreInvariant env (updateFunfact env store req).2 ∧
    StoreInvariant env (deleteFunfact env store req).2 ∧
    ((createNewFunfacts env store req).2.map (fun d => d.stateCode)
        = store.map (fun d => d.stateCode) ∨
      (findOne store (env.toUpperCase (stateParam req)) = none ∧
        (createNewFunfacts env store req).2.map (fun d => d.stateCode)
          = store.map (fun d => d.stateCode) ++ [env.toUpperCase (stateParam req)])) ∧
    (updateFunfact env store req).2.map (fun d => d.stateCode)
      = store.map (fun d => d.stateCode) ∧
    (deleteFunfact env store req).2.map (fun d => d.stateCode)
      = store.map (fun d => d.stateCode) := by
  have hupdate : (updateFunfact env store req).2.map (fun d => d.stateCode)
      = store.map (fun d => d.stateCode) := by
    rcases updateFunfact_shape env store req with h | ⟨d, xs, _, h⟩
    · rw [h]
    · rw [h, map_stateCode_updateOne]
  have hdelete : (deleteFunfact env store req).2.map (fun d => d.stateCode)
      = store.map (fun d => d.stateCode) := by
    rcases deleteFunfact_shape env store req with h | ⟨d, xs, _, h⟩
    · rw [h]
    · rw [h, map_stateCode_updateOne]
  refine ⟨?_, storeInvariant_of_codes_eq env hupdate hinv,
    storeInvariant_of_codes_eq env hdelete hinv, ?_, hupdate, hdelete⟩
  · rcases createNewFunfacts_shape env store req with h | ⟨d, xs, _, h⟩ | ⟨s, xs, hcat, hfind, h⟩
    · rw [h]
      exact hinv
    · exact storeInvariant_of_codes_eq env (by rw [h, map_stateCode_updateOne]) hinv
    · rw [h]
      exact storeInvariant_append env xs hcat hfind hinv
  · rcases createNewFunfacts_shape env store req with h | ⟨d, xs, _, h⟩ | ⟨s, xs, hcat, hfind, h⟩
    · left
      rw [h]
    · left
      rw [h, map_stateCode_updateOne]
    · right
      refine ⟨hfind, ?_⟩
      rw [h]
      simp

/-! ## Reads depend on the store through one document -/

theorem getState_store (env : Env) (store : Store) (req : Request) :
    (getState env store req).2 = store := by
  unfold getState
  by_cases hm : stateMissing req = true
  · simp [hm]
  · cases hcat : findStatic env (env.toUpperCase (stateParam req)) <;> simp [hm, hcat]

theorem getFunfact_store (env : Env) (store : Store) (random : ℚ) (req : Request) :
    (getFunfact env store random req).2 = store := by
  unfold getFunfact
  by_cases hm : stateMissing req = true
  · simp [hm]
  · cases hcat : findStatic env (env.toUpperCase (stateParam req)) with
    | none => simp [hm, hcat]
    | some staticState =>
      simp only [hm, hcat, if_false, Bool.false_eq_true]
      split <;> rfl

theorem getState_response_congr (env : Env) (s₁ s₂ : Store) (req : Request)
    (h : ((findOne s₁ (env.toUpperCase (stateParam req))).map (fun d => d.funfacts)).getD []
      = ((findOne s₂ (env.toUpperCase (stateParam req))).map (fun d => d.funfacts)).getD []) :
    (getState env s₁ req).1 = (getState env s₂ req).1 := by
  unfold getState
  by_cases hm : stateMissing req = true
  · simp [hm]
  · cases hcat : findStatic env (env.toUpperCase (stateParam req)) with
    | none => simp [hm, hcat]
    | some staticState =>
      cases h₁ : findOne s₁ (env.toUpperCase (stateParam req)) with
      | none =>
        cases h₂ : findOne s₂ (env.toUpperCase (stateParam req)) with
        | none => simp [hm, hcat, h₁, h₂]
        | some d₂ =>
          have : d₂.funfacts = [] := by simpa [h₁, h₂] using h.symm
          simp [hm, hcat, h₁, h₂, this]
      | some d₁ =>
        cases h₂ : findOne s₂ (env.toUpperCase (stateParam req)) with
        | none =>
          have : d₁.funfacts = [] := by simpa [h₁, h₂] using h
          simp [hm, hcat, h₁, h₂, this]
        | some d₂ =>
          have : d₁.funfacts = d₂.funfacts := by simpa [h₁, h₂] using h
          simp [hm, hcat, h₁, h₂, this]

theorem gatherFunfacts_congr (s₁ s₂ : Store) (code : String) (staticState : StateRecord)
    (h : ((findOne s₁ code).map (fun d => d.funfacts)).getD []
      = ((findOne s₂ code).map (fun d => d.funfacts)).getD []) :
    gatherFunfacts s₁ code staticState = gatherFunfacts s₂ code staticState := by
  unfold gatherFunfacts
  cases h₁ : findOne s₁ code with
  | none =>
    cases h₂ : findOne s₂ code with
    | none => rfl
    | some d₂ =>
      have : d₂.funfacts = [] := by simpa [h₁, h₂] using h.symm
      simp [this]
  | some d₁ =>
    cases h₂ : findOne s₂ code with
    | none =>
      have : d₁.funfacts = [] := by simpa [h₁, h₂] using h
      simp [this]
    | some d₂ =>
      have : d₁.funfacts = d₂.funfacts := by simpa [h₁, h₂] using h
      simp [this]

theorem getFunfact_response_congr (env : Env) (s₁ s₂ : Store) (random : ℚ) (req : Request)
    (h : ((findOne s₁ (env.toUpperCase (stateParam req))).map (fun d => d.funfacts)).getD []
      = ((findOne s₂ (env.toUpperCase (stateParam req))).map (fun d => d.funfacts)).getD []) :
    (getFunfact env s₁ random req).1 = (getFunfact env s₂ random req).1 := by
  unfold getFunfact
  by_cases hm : stateMissing req = true
  · simp [hm]
  · cases hcat : findStatic env (env.toUpperCase (stateParam req)) with
    | none => simp [hm, hcat]
    | some staticState =>
      have hg := gatherFunfacts_congr s₁ s₂ _ staticState h
      simp only [hm, hcat, hg, if_false, Bool.false_eq_true]
      split <;> rfl

theorem findOne_other_of_shape (store after : Store) (code other : String)
    (hother : other ≠ code)
    (hshape : after = store ∨
      (∃ (d : OverlayRecord) (xs : List String),
        findOne store code = some d ∧ after = updateOne store ⟨d.stateCode, xs⟩) ∨
      (∃ xs : List String, after = store ++ [⟨code, xs⟩])) :
    findOne after other = findOne store other := by
  rcases hshape with h | ⟨d, xs, hfind, h⟩ | ⟨xs, h⟩
  · rw [h]
  · rw [h]
    apply findOne_updateOne_other
    simpa [findOne_code hfind] using hother
  · rw [h]
    exact findOne_append_other store _ other hother

/-- Claim C17: a call of `createNewFunfacts`, `updateFunfact` or
`deleteFunfact` for one code leaves the overlay document of every other code
(another uppercase form) as it was, so `getState` and `getFunfact` for the
other code answer the same before and after; and `getAllStates`, `getState`
and `getFunfact` return the store they were given. -/
theorem frame_other_codes (env : Env) (store : Store) (random : ℚ) (req other : Request)
    (hother : env.toUpperCase (stateParam other) ≠ env.toUpperCase (stateParam req)) :
    (findOne (createNewFunfacts env store req).2 (env.toUpperCase (stateParam other))
        = findOne store (env.toUpperCase (stateParam other)) ∧
      (getState env (createNewFunfacts env store req).2 other).1
        = (getState env store other).1 ∧
      (getFunfact env (createNewFunfacts env store req).2 random other).1
        = (getFunfact env store random other).1) ∧
    (findOne (updateFunfact env store req).2 (env.toUpperCase (stateParam other))
        = findOne store (env.toUpperCase (stateParam other)) ∧
      (getState env (updateFunfact env store req).2 other).1
        = (getState env store other).1 ∧
      (getFunfact env (updateFunfact env store req).2 random other).1
        = (getFunfact env store random other).1) ∧
    (findOne (deleteFunfact env store req).2 (env.toUpperCase (stateParam other))
        = findOne store (env.toUpperCase (stateParam other)) ∧
      (getState env (deleteFunfact env store req).2 other).1
        = (getState env store other).1 ∧
      (getFunfact env (deleteFunfact env store req).2 random other).1
        = (getFunfact env store random other).1) ∧
    (getAllStates env store req).2 = store ∧
    (getState env store req).2 = store ∧
    (getFunfact env store random req).2 = store := by
  have hcreate : findOne (createNewFunfacts env store req).2
      (env.toUpperCase (stateParam other))
      = findOne store (env.toUpperCase (stateParam other)) := by
    apply findOne_other_of_shape store _ _ _ hother
    rcases createNewFunfacts_shape env store req with h | h | ⟨s, xs, _, _, h⟩
    · exact Or.inl h
    · exact Or.inr (Or.inl h)
    · exact Or.inr (Or.inr ⟨xs, h⟩)
  have hupdate : findOne (updateFunfact env store req).2
      (env.toUpperCase (stateParam other))
      = findOne store (env.toUpperCase (stateParam other)) := by
    apply findOne_other_of_shape store _ _ _ hother
    rcases updateFunfact_shape env store req with h | h
    · exact Or.inl h
    · exact Or.inr (Or.inl h)
  have hdelete : findOne (deleteFunfact env store req).2
      (env.toUpperCase (stateParam other))
      = findOne store (env.toUpperCase (stateParam other)) := by
    apply findOne_other_of_shape store _ _ _ hother
    rcases deleteFunfact_shape env store req with h | h
    · exact Or.inl h
    · exact Or.inr (Or.inl h)
  refine ⟨⟨hcreate, ?_, ?_⟩, ⟨hupdate, ?_, ?_⟩, ⟨hdelete, ?_, ?_⟩, rfl,
    getState_store env store req, getFunfact_store env store random req⟩
  · exact getState_response_congr env _ _ other (by rw [hcreate])
  · exact getFunfact_response_congr env _ _ random other (by rw [hcreate])
  · exact getState_response_congr env _ _ other (by rw [hupdate])
  · exact getFunfact_response_congr env _ _ random other (by rw [hupdate])
  · exact getState_response_congr env _ _ other (by rw [hdelete])
  · exact getFunfact_response_congr env _ _ random other (by rw [hdelete])

/-! ## Appending nothing -/

theorem mergeRecord_empty (js : List StateRecord) (code : String) :
    mergeRecord js ⟨code, []⟩ = js := by
  simp [mergeRecord]

/-- Claim C18: for a valid code, `createNewFunfacts` with the empty array
passes validation and succeeds; when the code had no document it adds one with
an empty list, otherwise the document and the whole store stay as they were;
and `getState`, `getFunfact` and `getAllStates`, for any request, answer the
same on the store after the call as on the store before it. -/
theorem createNewFunfacts_empty_array (env : Env) (store : Store) (random : ℚ)
    (req other : Request) (c : String) (staticState : StateRecord)
    (hparam : req.params.state = some c) (hc : c ≠ "")
    (hcat : findStatic env (env.toUpperCase c) = some staticState)
    (hbody : req.body.funfacts = .arr []) :
    ∃ (doc : OverlayRecord) (after : Store),
      createNewFunfacts env store req = (Response.json (.document doc), after) ∧
      doc = ⟨env.toUpperCase c,
        ((findOne store (env.toUpperCase c)).map (fun d => d.funfacts)).getD []⟩ ∧
      (findOne store (env.toUpperCase c) = none → after = store ++ [⟨env.toUpperCase c, []⟩]) ∧
      (∀ d, findOne store (env.toUpperCase c) = some d → doc = d ∧ after = store) ∧
      (getState env after other).1 = (getState env store other).1 ∧
      (getFunfact env after random other).1 = (getFunfact env store random other).1 ∧
      (getAllStates env after other).1 = (getAllStates env store other).1 := by
  have hcreate := createNewFunfacts_valid env store req c staticState [] hparam hc hcat hbody
  simp only [List.append_nil] at hcreate
  cases hfind : findOne store (env.toUpperCase c) with
  | none =>
    rw [hfind] at hcreate
    simp only [Option.map_none', Option.getD_none, Option.isNone_none, save, if_true] at hcreate
    have hlist : ∀ k : String,
        ((findOne (store ++ [⟨env.toUpperCase c, []⟩]) k).map (fun d => d.funfacts)).getD []
          = ((findOne store k).map (fun d => d.funfacts)).getD [] := by
      intro k
      by_cases hk : k = env.toUpperCase c
      · subst hk
        rw [findOne_append_new store ⟨env.toUpperCase c, []⟩ hfind, hfind]
        rfl
      · rw [findOne_append_other store ⟨env.toUpperCase c, []⟩ k hk]
    refine ⟨_, _, hcreate, rfl, fun _ => rfl, ?_, ?_, ?_, ?_⟩
    · intro d hd
      cases hd
    · exact getState_response_congr env _ _ other (hlist _)
    · exact getFunfact_response_congr env _ _ random other (hlist _)
    · simp [getAllStates, List.foldl_append, mergeRecord_empty]
  | some d =>
    rw [hfind] at hcreate
    have hcode := findOne_code hfind
    have hdoc : (⟨env.toUpperCase c, d.funfacts⟩ : OverlayRecord) = d := by
      cases d
      simp only at hcode
      simp [hcode]
    simp only [Option.map_some', Option.getD_some, Option.isNone_some, save, hdoc] at hcreate
    rw [updateOne_self store d _ hfind] at hcreate
    refine ⟨_, _, hcreate, by simp [hdoc], ?_, ?_, rfl, rfl, rfl⟩
    · intro h
      cases h
    · intro d' hd'
      cases hd'
      exact ⟨rfl, rfl⟩

/-! ## `getAllStates` against `getState` -/

theorem mergeRecord_cons_ne (s : StateRecord) (ss : List StateRecord) (d : OverlayRecord)
    (h : s.code ≠ d.stateCode) : mergeRecord (s :: ss) d = s :: mergeRecord ss d := by
  unfold mergeRecord
  by_cases hlen : d.funfacts.length > 0
  · simp only [hlen, if_true]
    have hp : (s.code == d.stateCode) = false := by simpa using h
    rw [List.findIdx?_cons, hp]
    simp only [Bool.false_eq_true, if_false, zero_add]
    rw [List.findIdx?_succ]
    cases List.findIdx? (fun s => s.code == d.stateCode) ss with
    | none => rfl
    | some idx => simp
  · simp [hlen]

theorem mergeRecord_of_not_mem (js : List StateRecord) (d : OverlayRecord)
    (h : d.stateCode ∉ js.map (fun s => s.code)) : mergeRecord js d = js := by
  induction js with
  | nil => simp [mergeRecord]
  | cons s ss ih =>
    have hs : s.code ≠ d.stateCode := by
      intro heq
      apply h
      simp [heq]
    have hss : d.stateCode ∉ ss.map (fun s => s.code) := by
      intro hmem
      apply h
      simp only [List.map_cons, List.mem_cons]
      exact Or.inr hmem
    rw [mergeRecord_cons_ne s ss d hs, ih hss]

theorem mergeRecord_cons_eq (s : StateRecord) (ss : List StateRecord) (d : OverlayRecord)
    (h : s.code = d.stateCode) (hlen : d.funfacts.length > 0) :
    mergeRecord (s :: ss) d = { s with funfacts := some d.funfacts } :: ss := by
  unfold mergeRecord
  simp [hlen, List.findIdx?_cons, h]

theorem mergeRecord_eq_map (js : List StateRecord) (d : OverlayRecord)
    (hnodup : (js.map (fun s => s.code)).Nodup) :
    mergeRecord js d
      = js.map (fun s =>
          if s.code = d.stateCode ∧ d.funfacts.length > 0 then
            { s with funfacts := some d.funfacts }
          else s) := by
  induction js with
  | nil => simp [mergeRecord]
  | cons s ss ih =>
    simp only [List.map_cons, List.nodup_cons] at hnodup
    by_cases hs : s.code = d.stateCode
    · have hss : d.stateCode ∉ ss.map (fun s => s.code) := hs ▸ hnodup.1
      have hrest : ss.map (fun s =>
          if s.code = d.stateCode ∧ d.funfacts.length > 0 then
            { s with funfacts := some d.funfacts }
          else s) = ss := by
        conv_rhs => rw [← List.map_id ss]
        apply List.map_congr_left
        intro t ht
        have : t.code ≠ d.stateCode := by
          intro heq
          exact hss (List.mem_map.mpr ⟨t, ht, heq⟩)
        simp [this]
      by_cases hlen : d.funfacts.length > 0
      · rw [mergeRecord_cons_eq s ss d hs hlen, List.map_cons, hrest]
        simp [hs, hlen]
      · have hmerge : mergeRecord (s :: ss) d = s :: ss := by
          unfold mergeRecord
          simp [hlen]
        rw [hmerge, List.map_cons, hrest]
        simp [hlen]
    · rw [mergeRecord_cons_ne s ss d hs, ih hnodup.2, List.map_cons]
      simp [hs]

theorem findOne_cons_self (d : OverlayRecord) (ds : Store) :
    findOne (d :: ds) d.stateCode = some d := by
  simp [findOne]

theorem findOne_cons_ne (d : OverlayRecord) (ds : Store) (code : String)
    (h : d.stateCode ≠ code) : findOne (d :: ds) code = findOne ds code := by
  simp [findOne, List.find?_cons, h]

theorem findOne_none_of_not_mem (store : Store) (code : String)
    (h : code ∉ store.map (fun d => d.stateCode)) : findOne store code = none := by
  unfold findOne
  rw [List.find?_eq_none]
  intro d hd hcode
  apply h
  simp only [beq_iff_eq] at hcode
  exact List.mem_map.mpr ⟨d, hd, hcode⟩

theorem foldl_mergeRecord_eq_map (store : Store) (js : List StateRecord)
    (hjs : (js.map (fun s => s.code)).Nodup)
    (hstore : (store.map (fun d => d.stateCode)).Nodup) :
    store.foldl mergeRecord js = js.map (mergedRecord store) := by
  induction store generalizing js with
  | nil =>
    conv_lhs => rw [List.foldl_nil, ← List.map_id js]
    apply List.map_congr_left
    intro s _
    simp [mergedRecord, findOne]
  | cons d ds ih =>
    simp only [List.map_cons, List.nodup_cons] at hstore
    have hcodes : (mergeRecord js d).map (fun s => s.code) = js.map (fun s => s.code) :=
      codes_of_staticPart (staticPart_mergeRecord js d)
    rw [List.foldl_cons, ih (mergeRecord js d) (hcodes ▸ hjs) hstore.2,
      mergeRecord_eq_map js d hjs, List.map_map]
    apply List.map_congr_left
    intro s _
    simp only [Function.comp_apply]
    by_cases hs : s.code = d.stateCode
    · have hnone : findOne ds d.stateCode = none := findOne_none_of_not_mem ds _ hstore.1
      by_cases hlen : d.funfacts.length > 0
      · simp [mergedRecord, hs, hlen, hnone, findOne_cons_self]
      · simp [mergedRecord, hs, hlen, hnone, findOne_cons_self]
    · have hne : d.stateCode ≠ s.code := fun h => hs h.symm
      simp [mergedRecord, hs, findOne_cons_ne d ds s.code hne]

theorem foldl_mergeRecord_filter (store : Store) (js : List StateRecord) (codes : List String)
    (hcodes : js.map (fun s => s.code) = codes) :
    (store.filter (fun d => decide (d.funfacts ≠ []) && codes.contains d.stateCode)).foldl
        mergeRecord js
      = store.foldl mergeRecord js := by
  induction store generalizing js with
  | nil => rfl
  | cons d ds ih =>
    have hnext : (mergeRecord js d).map (fun s => s.code) = codes := by
      rw [codes_of_staticPart (staticPart_mergeRecord js d), hcodes]
    by_cases hkeep : (decide (d.funfacts ≠ []) && codes.contains d.stateCode) = true
    · simp only [List.filter_cons, hkeep, if_true, List.foldl_cons]
      exact ih _ hnext
    · simp only [List.filter_cons, hkeep, if_false, List.foldl_cons, Bool.false_eq_true]
      have hsame : mergeRecord js d = js := by
        by_cases hempty : d.funfacts = []
        · simp [mergeRecord, hempty]
        · apply mergeRecord_of_not_mem
          rw [hcodes]
          intro hmem
          apply hkeep
          simp [hempty, hmem]
      rw [hsame, ih js hcodes]

theorem find?_of_mem_nodup (l : List StateRecord) (s : StateRecord) (hmem : s ∈ l)
    (hnodup : (l.map (fun t => t.code)).Nodup) :
    l.find? (fun t => t.code == s.code) = some s := by
  induction l with
  | nil => simp at hmem
  | cons t ts ih =>
    simp only [List.map_cons, List.nodup_cons] at hnodup
    rcases List.mem_cons.mp hmem with h | h
    · subst h
      simp
    · have hne : t.code ≠ s.code := by
        intro heq
        exact hnodup.1 (heq ▸ List.mem_map.mpr ⟨s, h, rfl⟩)
      simp [List.find?_cons, hne, ih h hnodup.2]

/-- Claim C13: `getAllStates` without a filter returns one entry per catalog
record, in catalog order and with the catalog's code, name and fields. When
the catalog's codes are distinct, uppercase and non-empty and the store holds
at most one document per code, the entry at each position is the record
`getState` answers with for that catalog record's code. Documents whose list
is empty or whose code is not in the catalog do not change the result. -/
theorem getAllStates_agrees_with_getState (env : Env) (store : Store) (req : Request)
    (htrue : req.query.contig ≠ some "true") (hfalse : req.query.contig ≠ some "false") :
    ∃ l : List StateRecord,
      getAllStates env store req = (Response.json (.states l), store) ∧
      l.length = env.statesJson.length ∧
      l.map StateRecord.staticPart = env.statesJson.map StateRecord.staticPart ∧
      ((env.statesJson.map (fun s => s.code)).Nodup →
        (∀ s ∈ env.statesJson, env.toUpperCase s.code = s.code ∧ s.code ≠ "") →
        (store.map (fun d => d.stateCode)).Nodup →
        ∀ (i : Nat) (s : StateRecord) (one : Request),
          env.statesJson[i]? = some s → one.params.state = some s.code →
          ∃ r : StateRecord,
            l[i]? = some r ∧ getState env store one = (Response.json (.state r), store)) ∧
      (getAllStates env
          (store.filter (fun d => decide (d.funfacts ≠ [])
            && (env.statesJson.map (fun s => s.code)).contains d.stateCode)) req).1
        = (getAllStates env store req).1 := by
  have hfold := staticPart_foldl_mergeRecord store env.statesJson
  have hresult : getAllStates env store req
      = (Response.json (.states (store.foldl mergeRecord env.statesJson)), store) := by
    simp [getAllStates, htrue, hfalse]
  refine ⟨_, hresult, ?_, hfold, ?_, ?_⟩
  · simpa using congrArg List.length hfold
  · intro hcatalog hupper hstore i s one hi hone
    have hmem : s ∈ env.statesJson := List.getElem?_mem hi
    obtain ⟨hup, hne⟩ := hupper s hmem
    have hcat : findStatic env (env.toUpperCase s.code) = some s := by
      rw [hup]
      exact find?_of_mem_nodup env.statesJson s hmem hcatalog
    refine ⟨mergedRecord store s, ?_, ?_⟩
    · rw [foldl_mergeRecord_eq_map store env.statesJson hcatalog hstore, List.getElem?_map, hi]
      rfl
    · rw [getState_valid env store one s.code s hone hne hcat, hup]
      rfl
  · simp only [getAllStates]
    rw [foldl_mergeRecord_filter store env.statesJson _ rfl]

/-! ## The later results on the small instance -/

/-- Witness of C11: a request without a state code on the example store. -/
theorem code_errors_before_store_witness :
    stateMissing (contigRequest none) = true ∧
    getState demoEnv kansasStore (contigRequest none)
      = (Response.error 400 "State code required.", kansasStore) ∧
    getFunfact demoEnv kansasStore 0 (contigRequest none)
      = (Response.error 400 "State code required.", kansasStore) ∧
    createNewFunfacts demoEnv kansasStore (contigRequest none)
      = (Response.error 400 "State code required.", kansasStore) ∧
    updateFunfact demoEnv kansasStore (contigRequest none)
      = (Response.error 400 "State code required.", kansasStore) ∧
    deleteFunfact demoEnv kansasStore (contigRequest none)
      = (Response.error 400 "State code required.", kansasStore) :=
  ⟨rfl, (code_errors_before_store demoEnv kansasStore [] 0 (contigRequest none)).1 rfl⟩

/-- Counterexample to C12 as stated: `zz` and `ZZ` have the same uppercase
form, and `createNewFunfacts` answers them with different messages, each
echoing the code as it was typed. -/
theorem case_insensitive_counterexample :
    demoEnv.toUpperCase "zz" = demoEnv.toUpperCase "ZZ" ∧
    createNewFunfacts demoEnv kansasStore (mkRequest "zz" (.arr ["Fact C"]) .undefined .undefined)
      = (Response.error 400 "No state matches code zz.", kansasStore) ∧
    createNewFunfacts demoEnv kansasStore (mkRequest "ZZ" (.arr ["Fact C"]) .undefined .undefined)
      = (Response.error 400 "No state matches code ZZ.", kansasStore) ∧
    Response.error 400 "No state matches code zz."
      ≠ Response.error 400 "No state matches code ZZ." :=
  ⟨by decide, by decide, by decide, by decide⟩

/-- Witness of C12: `ks` and `KS` on the example store. -/
theorem case_insensitive_matching_witness :
    demoEnv.toUpperCase "ks" = demoEnv.toUpperCase "KS" ∧
    getState demoEnv kansasStore (codeRequest "ks")
      = getState demoEnv kansasStore (codeRequest "KS") ∧
    getFunfact demoEnv kansasStore 0 (codeRequest "ks")
      = getFunfact demoEnv kansasStore 0 (codeRequest "KS") :=
  ⟨by decide,
    (case_insensitive_matching demoEnv kansasStore 0 (codeRequest "ks") (codeRequest "KS")
      "ks" "KS" rfl rfl (by decide) (by decide) rfl).1,
    (case_insensitive_matching demoEnv kansasStore 0 (codeRequest "ks") (codeRequest "KS")
      "ks" "KS" rfl rfl (by decide) (by decide) rfl).2.1⟩

/-- Witness of C13: the unfiltered list on the example store. -/
theorem getAllStates_agrees_with_getState_witness :
    ∃ l : List StateRecord,
      getAllStates demoEnv kansasStore (contigRequest none)
        = (Response.json (.states l), kansasStore) ∧
      l.length = demoEnv.statesJson.length ∧
      l.map StateRecord.staticPart = demoEnv.statesJson.map StateRecord.staticPart ∧
      ((demoEnv.statesJson.map (fun s => s.code)).Nodup →
        (∀ s ∈ demoEnv.statesJson, demoEnv.toUpperCase s.code = s.code ∧ s.code ≠ "") →
        (kansasStore.map (fun d => d.stateCode)).Nodup →
        ∀ (i : Nat) (s : StateRecord) (one : Request),
          demoEnv.statesJson[i]? = some s → one.params.state = some s.code →
          ∃ r : StateRecord,
            l[i]? = some r ∧
            getState demoEnv kansasStore one = (Response.json (.state r), kansasStore)) ∧
      (getAllStates demoEnv
          (kansasStore.filter (fun d => decide (d.funfacts ≠ [])
            && (demoEnv.statesJson.map (fun s => s.code)).contains d.stateCode))
          (contigRequest none)).1
        = (getAllStates demoEnv kansasStore (contigRequest none)).1 :=
  getAllStates_agrees_with_getState demoEnv kansasStore (contigRequest none) (by decide)
    (by decide)

/-- Witness of C14: removing the only fact left in the end-to-end example. -/
theorem deleteFunfact_last_fact_witness :
    ∃ after : Store,
      deleteFunfact demoEnv [⟨"KS", ["Fact A2"]⟩] (removeRequest (.num (.fin 1)))
        = (Response.json (.document ⟨"KS", []⟩), after) ∧
      findOne after (demoEnv.toUpperCase "ks") = some ⟨"KS", []⟩ ∧
      getState demoEnv after (codeRequest "ks") = (Response.json (.state kansas), after) :=
  deleteFunfact_last_fact demoEnv [⟨"KS", ["Fact A2"]⟩] (removeRequest (.num (.fin 1)))
    (codeRequest "ks") "ks" kansas ⟨"KS", ["Fact A2"]⟩ "Fact A2" rfl (by decide) (by decide)
    (by decide) rfl rfl rfl

/-- Witness of C16: the first addition of the end-to-end example, from the
empty store. -/
theorem store_invariant_preserved_witness :
    StoreInvariant demoEnv [] ∧
    StoreInvariant demoEnv (createNewFunfacts demoEnv [] addRequest).2 ∧
    (createNewFunfacts demoEnv [] addRequest).2.map (fun d => d.stateCode) = ["KS"] :=
  ⟨by decide, (store_invariant_preserved demoEnv [] addRequest (by decide)).1, by decide⟩

/-- Witness of C17: adding facts to Kansas while reading Alaska. -/
theorem frame_other_codes_witness :
    demoEnv.toUpperCase (stateParam (codeRequest "ak"))
      ≠ demoEnv.toUpperCase (stateParam addRequest) ∧
    findOne (createNewFunfacts demoEnv kansasStore addRequest).2
        (demoEnv.toUpperCase (stateParam (codeRequest "ak")))
      = findOne kansasStore (demoEnv.toUpperCase (stateParam (codeRequest "ak"))) ∧
    (getState demoEnv (createNewFunfacts demoEnv kansasStore addRequest).2
        (codeRequest "ak")).1
      = (getState demoEnv kansasStore (codeRequest "ak")).1 ∧
    (getFunfact demoEnv (createNewFunfacts demoEnv kansasStore addRequest).2 0
        (codeRequest "ak")).1
      = (getFunfact demoEnv kansasStore 0 (codeRequest "ak")).1 :=
  ⟨by decide,
    (frame_other_codes demoEnv kansasStore 0 addRequest (codeRequest "ak") (by decide)).1⟩

/-- Witness of C18: the empty array for Kansas on the empty store. -/
theorem createNewFunfacts_empty_array_witness :
    ∃ (doc : OverlayRecord) (after : Store),
      createNewFunfacts demoEnv [] (mkRequest "ks" (.arr []) .undefined .undefined)
        = (Response.json (.document doc), after) ∧
      doc = ⟨demoEnv.toUpperCase "ks",
        ((findOne [] (demoEnv.toUpperCase "ks")).map (fun d => d.funfacts)).getD []⟩ ∧
      (findOne [] (demoEnv.toUpperCase "ks") = none →
        after = [] ++ [⟨demoEnv.toUpperCase "ks", []⟩]) ∧
      (∀ d, findOne [] (demoEnv.toUpperCase "ks") = some d → doc = d ∧ after = []) ∧
      (getState demoEnv after (codeRequest "ks")).1
        = (getState demoEnv [] (codeRequest "ks")).1 ∧
      (getFunfact demoEnv after 0 (codeRequest "ks")).1
        = (getFunfact demoEnv [] 0 (codeRequest "ks")).1 ∧
      (getAllStates demoEnv after (codeRequest "ks")).1
        = (getAllStates demoEnv [] (codeRequest "ks")).1 :=
  createNewFunfacts_empty_array demoEnv [] 0 (mkRequest "ks" (.arr []) .undefined .undefined)
    (codeRequest "ks") "ks" kansas rfl (by decide) (by decide) rfl

end StatesController
